import Mathlib

/-!
Verification development for the Salesapp repository.

The core under study is the inventory reservation ledger
(`agents/inventory_agent.py`: `InventoryAgent._check`, `_reserve`, `_release`)
and the checkout saga orchestrator
(`agents/app/orchestrator.py`: `SalesOrchestrator.checkout_flow`).

Modelling conventions:
* Python dictionary payload values are embedded as `PyVal`
  (ints, strings, booleans, `None`); a cart item is a record of the three
  keys the code ever reads (`sku`, `qty`, `price`), each an `Option PyVal`
  (`Option.none` = key absent).
* Python exceptions (KeyError, ValueError from `int(...)`, TypeError from
  `*`/`+` on incompatible values) are embedded as `Except String`; a whole
  call that would raise is modelled as `.error`.  (Python would leave partial
  mutations behind an exception raised mid-loop; every verified claim is
  restricted to non-raising executions, where the two views agree.)
* Dictionaries are association lists with first-occurrence lookup/update
  semantics; `locations` dictionaries are kept sorted by key, so that
  iterating the list left to right coincides with the source's
  `for loc in sorted(locs.keys())`.
* Machine integers are `Int` (Python ints are unbounded).
* The single process-wide lock in `inventory_agent.py` makes `_reserve` and
  `_release` critical sections mutually exclusive, so concurrent executions
  are modelled as arbitrary sequential interleavings of whole calls.
-/

instance {ε α : Type} [DecidableEq ε] [DecidableEq α] : DecidableEq (Except ε α) := fun x y =>
  match x, y with
  | .ok a, .ok b =>
    if h : a = b then .isTrue (by rw [h]) else .isFalse (fun c => h (Except.ok.inj c))
  | .error a, .error b =>
    if h : a = b then .isTrue (by rw [h]) else .isFalse (fun c => h (Except.error.inj c))
  | .ok _, .error _ => .isFalse (fun c => Except.noConfusion c)
  | .error _, .ok _ => .isFalse (fun c => Except.noConfusion c)

/-- A Python scalar value as it occurs in the payloads of this repository. -/
inductive PyVal where
  | int (n : Int)
  | str (s : String)
  | bool (b : Bool)
  | none
deriving DecidableEq, Repr

namespace PyVal

/-- Python truthiness of a `PyVal` (`if x:`). -/
def truthy : PyVal → Bool
  | .int n => !(n == 0)
  | .str s => !(s == "")
  | .bool b => b
  | .none => false

/-- Python `str(x)`, as used in f-strings. -/
def pystr : PyVal → String
  | .int n => toString n
  | .str s => s
  | .bool b => if b then "True" else "False"
  | .none => "None"

end PyVal

/-- Value of a decimal digit list, `Option.none` if empty or non-digit. -/
def digitsVal (cs : List Char) : Option Nat :=
  if cs = [] then Option.none
  else cs.foldl
    (fun acc c =>
      match acc with
      | Option.none => Option.none
      | some n => if c.isDigit then some (n * 10 + (c.toNat - 48)) else Option.none)
    (some 0)

/-- Python `int(s)` on a string: optional sign followed by decimal digits. -/
def pyParseInt (s : String) : Option Int :=
  match s.toList with
  | '-' :: rest => (digitsVal rest).map (fun n => -(n : Int))
  | '+' :: rest => (digitsVal rest).map (fun n => (n : Int))
  | cs => (digitsVal cs).map (fun n => (n : Int))

/-- Python `int(x)`: identity on ints, 0/1 on bools, parse on strings,
`TypeError` on `None`. -/
def pyToInt : PyVal → Except String Int
  | .int n => .ok n
  | .bool b => .ok (if b then 1 else 0)
  | .str s =>
    match pyParseInt s with
    | some n => .ok n
    | Option.none => .error ("ValueError: invalid literal for int: " ++ s)
  | .none => .error "TypeError: int argument must be a string or a number, not NoneType"

/-- A cart item dictionary, restricted to the three keys the code reads.
`Option.none` models an absent key. -/
structure Item where
  sku : Option PyVal
  qty : Option PyVal
  price : Option PyVal
deriving DecidableEq, Repr

/-- Python `d.get(k, default)`. -/
def pyGet (f : Option PyVal) (d : PyVal) : PyVal := f.getD d

/-- Python `d[k]` (raises `KeyError` if the key is absent). -/
def pyIndex (f : Option PyVal) : Except String PyVal :=
  match f with
  | some v => .ok v
  | Option.none => .error "KeyError"

/-! ## Association list dictionary primitives -/

/-- First-occurrence lookup (Python `d.get(k)` / `d[k]`). -/
def alook {α β : Type} [DecidableEq α] : List (α × β) → α → Option β
  | [], _ => Option.none
  | (k, v) :: rest, key => if k = key then some v else alook rest key

/-- Update-in-place-or-append (Python `d[k] = v`). -/
def aset {α β : Type} [DecidableEq α] : List (α × β) → α → β → List (α × β)
  | [], key, val => [(key, val)]
  | (k, v) :: rest, key, val =>
    if k = key then (key, val) :: rest else (k, v) :: aset rest key val

/-- Remove the first occurrence of a key (Python `d.pop(k)`). -/
def adel {α β : Type} [DecidableEq α] : List (α × β) → α → List (α × β)
  | [], _ => []
  | (k, v) :: rest, key => if k = key then rest else (k, v) :: adel rest key

/-! ## The inventory ledger data model (`InventoryAgent.__init__`) -/

/-- Per-SKU stock record: `{"qty": int, "locations": {...}}`.
The `locations` list is kept sorted by key so that walking it left to right
is the source's `for loc in sorted(locs.keys())`. -/
structure StockEntry where
  qty : Int
  locations : List (String × Int)
deriving DecidableEq, Repr

/-- A reservation record: `{"order_id": ..., "items": ..., "expires_in_minutes": ...,
"created_at": ...}` (creation time represented by the integer timestamp that
also salts the reservation id). -/
structure Reservation where
  order_id : PyVal
  items : List Item
  hold : Int
  created_ts : Int
deriving DecidableEq, Repr

/-- The inventory agent's mutable state: `self._stock` and `self._reservations`.
Stock keys are `PyVal` because Python would happily key the dict by any
hashable value reaching `_release`; reservation ids are always the strings
built in `_reserve`. -/
structure Ledger where
  stock : List (PyVal × StockEntry)
  reservations : List (String × Reservation)
deriving DecidableEq, Repr

/-- The initial stock map from `InventoryAgent.__init__`. -/
def initialLedger : Ledger :=
  ⟨[(.str "TSHIRT-RED-XL", ⟨10, [("STORE_1", 5), ("WAREHOUSE", 5)]⟩),
    (.str "TSHIRT-BLUE-M", ⟨0, [("STORE_1", 0), ("WAREHOUSE", 0)]⟩),
    (.str "JEANS-BLK-32", ⟨6, [("STORE_2", 6)]⟩),
    (.str "HAT-BLK", ⟨15, [("WAREHOUSE", 15)]⟩)],
   []⟩

/-- Task result as far as the claims observe it: the `status` literal, the
payload entries the orchestrator reads back, and the error codes.  (Error
messages/details and `next_actions` are advisory and never branched on.) -/
inductive Status where
  | success
  | failed
  | pending
deriving DecidableEq, Repr

structure TaskResult where
  status : Status
  payload : List (String × PyVal)
  errorCodes : List String
deriving DecidableEq, Repr

/-! ## `InventoryAgent._check` -/

/-- Availability flags for each requested item, in order
(`_check` lines 47-70).  Only the per-item `available` field feeds the
result status; the echoed quantities are never branched on. -/
def availOf (st : Ledger) (preferred : PyVal) (sku : PyVal) (qty : Int) : Bool :=
  match alook st.stock sku with
  | Option.none => false
  | some entry =>
    match preferred with
    | .str p =>
      -- `if preferred_store and preferred_store in stock_entry.get("locations", {})`
      if p ≠ "" then
        match alook entry.locations p with
        | some locQty => decide (qty ≤ locQty) || decide (qty ≤ entry.qty)
        | Option.none => decide (qty ≤ entry.qty)
      else decide (qty ≤ entry.qty)
    -- a non-string preferred store is truthy or not, but never a key of the
    -- string-keyed locations dict, so the store branch is skipped
    | _ => decide (qty ≤ entry.qty)

def checkItems (st : Ledger) (preferred : PyVal) : List Item → Except String (List Bool)
  | [] => .ok []
  | it :: rest =>
    match pyToInt (pyGet it.qty (.int 1)) with
    | .error e => .error e
    | .ok qty =>
      match checkItems st preferred rest with
      | .error e => .error e
      | .ok others => .ok (availOf st preferred (pyGet it.sku .none) qty :: others)

/-- `InventoryAgent._check`: pure read, status `success` iff every item is
available. -/
def inventoryCheck (st : Ledger) (items : List Item) (preferred : PyVal) :
    Except String TaskResult :=
  match checkItems st preferred items with
  | .error e => .error e
  | .ok avails => .ok ⟨if avails.all id then .success else .failed, [], []⟩

/-! ## `InventoryAgent._reserve` -/

/-- Validation loop (lines 104-114): first item whose SKU is unknown or whose
total quantity is below the requested quantity, if any. -/
def findShort (st : Ledger) : List Item → Except String (Option PyVal)
  | [] => .ok Option.none
  | it :: rest =>
    match pyIndex it.sku with
    | .error e => .error e
    | .ok sku =>
      match pyIndex it.qty with
      | .error e => .error e
      | .ok v =>
        match pyToInt v with
        | .error e => .error e
        | .ok qty =>
          match alook st.stock sku with
          | Option.none => .ok (some sku)
          | some entry => if entry.qty < qty then .ok (some sku) else findShort st rest

/-- Location depletion loop (lines 125-132), walking locations in sorted key
order: take the whole remainder from the first location that covers it,
zeroing the ones before. -/
def depleteLocs : List (String × Int) → Int → List (String × Int)
  | [], _ => []
  | (l, v) :: rest, q =>
    if q ≤ v then (l, v - q) :: rest else (l, 0) :: depleteLocs rest (q - v)

/-- Mutation loop (lines 118-134): decrement each line's SKU total and deplete
its locations.  The `KeyError` branch is unreachable after `findShort`
returned no shortfall. -/
def applyLines (stock : List (PyVal × StockEntry)) :
    List Item → Except String (List (PyVal × StockEntry))
  | [] => .ok stock
  | it :: rest =>
    match pyIndex it.sku with
    | .error e => .error e
    | .ok sku =>
      match pyIndex it.qty with
      | .error e => .error e
      | .ok v =>
        match pyToInt v with
        | .error e => .error e
        | .ok qty =>
          match alook stock sku with
          | Option.none => .error "KeyError: sku"
          | some entry =>
            applyLines (aset stock sku ⟨entry.qty - qty, depleteLocs entry.locations qty⟩) rest

/-- The reservation id `f"res_{order_id}_{reservation_ts}"` (lines 116-117). -/
def ridOf (order_id : PyVal) (ts : Int) : String :=
  "res_" ++ order_id.pystr ++ "_" ++ toString ts

/-- `InventoryAgent._reserve`.  `ts` is the wall-clock second sampled at
line 116, threaded in as an environment input. -/
def inventoryReserve (st : Ledger) (order_id : PyVal) (items : List Item)
    (holdRaw : PyVal) (ts : Int) : Except String (Ledger × TaskResult) :=
  match pyToInt holdRaw with
  | .error e => .error e
  | .ok hold =>
    if !order_id.truthy || items.isEmpty then
      .ok (st, ⟨.failed, [], ["MISSING_FIELDS"]⟩)
    else
      match findShort st items with
      | .error e => .error e
      | .ok (some _) => .ok (st, ⟨.failed, [], ["INSUFFICIENT_STOCK"]⟩)
      | .ok Option.none =>
        match applyLines st.stock items with
        | .error e => .error e
        | .ok stock =>
          .ok (⟨stock, aset st.reservations (ridOf order_id ts) ⟨order_id, items, hold, ts⟩⟩,
               ⟨.success, [("reservation_id", .str (ridOf order_id ts))], []⟩)

/-! ## `InventoryAgent._release` -/

/-- `locs["WAREHOUSE"] = locs.get("WAREHOUSE", 0) + qty`, inserting at the
sorted position when absent (keeping the canonical sorted representation). -/
def bumpLoc : List (String × Int) → String → Int → List (String × Int)
  | [], key, q => [(key, q)]
  | (k, v) :: rest, key, q =>
    if k = key then (k, v + q) :: rest
    else if compare key k = Ordering.lt then (key, q) :: (k, v) :: rest
    else (k, v) :: bumpLoc rest key q

/-- Restore loop (lines 162-171): credit each reserved quantity back to the
SKU total and to the `WAREHOUSE` bucket (creating a locations-less entry for
an unknown SKU). -/
def creditLines (stock : List (PyVal × StockEntry)) :
    List Item → Except String (List (PyVal × StockEntry))
  | [] => .ok stock
  | it :: rest =>
    match pyIndex it.sku with
    | .error e => .error e
    | .ok sku =>
      match pyIndex it.qty with
      | .error e => .error e
      | .ok v =>
        match pyToInt v with
        | .error e => .error e
        | .ok qty =>
          match alook stock sku with
          | Option.none => creditLines (aset stock sku ⟨qty, []⟩) rest
          | some entry =>
            creditLines
              (aset stock sku ⟨entry.qty + qty, bumpLoc entry.locations "WAREHOUSE" qty⟩) rest

/-- `InventoryAgent._release`. -/
def inventoryRelease (st : Ledger) (ridv : PyVal) : Except String (Ledger × TaskResult) :=
  match ridv, ridv.truthy with
  | .str rid, true =>
    match alook st.reservations rid with
    | some record =>
      match creditLines st.stock record.items with
      | .error e => .error e
      | .ok stock =>
        .ok (⟨stock, adel st.reservations rid⟩,
             ⟨.success, [("released_reservation", .str rid)], []⟩)
    | Option.none => .ok (st, ⟨.failed, [], ["INVALID_RESERVATION"]⟩)
  | _, _ => .ok (st, ⟨.failed, [], ["INVALID_RESERVATION"]⟩)

-- quick sanity checks of the embedding against the demo data
example :
    inventoryCheck initialLedger
      [⟨some (.str "TSHIRT-RED-XL"), some (.int 2), Option.none⟩] .none
    = .ok ⟨.success, [], []⟩ := by decide

example :
    (inventoryReserve initialLedger (.str "o1")
      [⟨some (.str "HAT-BLK"), some (.int 2), Option.none⟩] (.int 30) 9) =
    .ok (⟨[(.str "TSHIRT-RED-XL", ⟨10, [("STORE_1", 5), ("WAREHOUSE", 5)]⟩),
           (.str "TSHIRT-BLUE-M", ⟨0, [("STORE_1", 0), ("WAREHOUSE", 0)]⟩),
           (.str "JEANS-BLK-32", ⟨6, [("STORE_2", 6)]⟩),
           (.str "HAT-BLK", ⟨13, [("WAREHOUSE", 13)]⟩)],
          [("res_o1_9", ⟨.str "o1", [⟨some (.str "HAT-BLK"), some (.int 2), Option.none⟩], 30, 9⟩)]⟩,
         ⟨.success, [("reservation_id", .str "res_o1_9")], []⟩) := by decide

/-! ## Python arithmetic in the orchestrator's amount expression
`sum(item.get("price", 0) * item.get("qty", 1) for item in cart)` -/

/-- Python string repetition `s * n` (empty for `n ≤ 0`). -/
def strRep (s : String) (n : Int) : String := String.join (List.replicate n.toNat s)

def boolInt (b : Bool) : Int := if b then 1 else 0

/-- Python `x * y` on payload scalars (`bool` coerces to int; `str * str`
and any `None` operand raise `TypeError`). -/
def pyMul : PyVal → PyVal → Except String PyVal
  | .int a, .int b => .ok (.int (a * b))
  | .int a, .str s => .ok (.str (strRep s a))
  | .str s, .int a => .ok (.str (strRep s a))
  | .int a, .bool b => .ok (.int (a * boolInt b))
  | .bool b, .int a => .ok (.int (boolInt b * a))
  | .bool b, .bool c => .ok (.int (boolInt b * boolInt c))
  | .bool b, .str s => .ok (.str (strRep s (boolInt b)))
  | .str s, .bool b => .ok (.str (strRep s (boolInt b)))
  | _, _ => .error "TypeError: unsupported operand types for *"

/-- Python `acc + v` where `acc` is the running value of `sum(...)` started
at the int 0: adding a string or `None` raises `TypeError`. -/
def addInt (a : Int) : PyVal → Except String Int
  | .int b => .ok (a + b)
  | .bool b => .ok (a + boolInt b)
  | .str _ => .error "TypeError: unsupported operand types for +: int and str"
  | .none => .error "TypeError: unsupported operand types for +: int and NoneType"

def cartAmountAux (acc : Int) : List Item → Except String Int
  | [] => .ok acc
  | it :: rest =>
    match pyMul (pyGet it.price (.int 0)) (pyGet it.qty (.int 1)) with
    | .error e => .error e
    | .ok p =>
      match addInt acc p with
      | .error e => .error e
      | .ok acc' => cartAmountAux acc' rest

/-- The order amount computed (three times, identically) by `checkout_flow`. -/
def cartAmount (cart : List Item) : Except String Int := cartAmountAux 0 cart

/-! ## `SalesOrchestrator.checkout_flow` -/

/-- Fixed collaborator responses for one checkout.  Per spec §4.3 the
payment gateway, fulfillment service and loyalty service are external
collaborators consumed only through their request/response contract, so the
saga is verified against an arbitrary response assignment. -/
structure Collab where
  authStatus : Status
  captureStatus : Status
  fulStatus : Status
deriving DecidableEq, Repr

/-- The orchestrator's terminal result, the final ledger, and the ordered
log of task types dispatched (which steps ran). -/
structure CheckoutOut where
  status : String
  reason : Option String
  ledger : Ledger
  steps : List String
deriving DecidableEq, Repr

def stepsBase : List String :=
  ["INVENTORY_CHECK", "RECOMMEND_FOR_CART", "LOYALTY_CALCULATE", "INVENTORY_RESERVE"]

/-- `SalesOrchestrator.checkout_flow` (orchestrator.py lines 27-95).
`order_id` and `ts` stand for the generated order id and the reservation
timestamp; the inventory agent is the concrete ledger above, the other
agents are the `Collab` response oracle.  Notes kept from the source:
* RECOMMEND_FOR_CART (`RecommendationAgent._for_cart`) returns status
  success on every control path, reads but never writes the ledger, and its
  payload is only echoed into the final success payload.
* LOYALTY_CALCULATE consumes the amount below; `LoyaltyAgent._calculate`
  fails iff the amount is ≤ 0 and its result (`loy_calc`) is never used.
  The identical sum expression is recomputed for the payment and
  loyalty-issue payloads, so it is bound once here.
* LOYALTY_ISSUE after fulfillment is best-effort: its status is ignored. -/
def checkout_flow (led : Ledger) (cart : List Item) (collab : Collab)
    (order_id : String) (ts : Int) (prefer_store : PyVal) : Except String CheckoutOut :=
  match inventoryCheck led cart prefer_store with
  | .error e => .error e
  | .ok invRes =>
    if invRes.status ≠ Status.success then
      .ok ⟨"failed", some "inventory_unavailable", led, ["INVENTORY_CHECK"]⟩
    else
      match cartAmount cart with
      | .error e => .error e
      | .ok _amount =>
        match inventoryReserve led (.str order_id) cart (.int 30) ts with
        | .error e => .error e
        | .ok (led1, rres) =>
          if rres.status ≠ Status.success then
            .ok ⟨"failed", some "reserve_failed", led1, stepsBase⟩
          else
            match collab.authStatus with
            | .failed =>
              -- the single wired compensation: release the reservation
              match inventoryRelease led1 (pyGet (alook rres.payload "reservation_id") .none) with
              | .error e => .error e
              | .ok (led2, _) =>
                .ok ⟨"failed", some "payment_failed", led2,
                     stepsBase ++ ["PAYMENT_AUTHORIZE", "INVENTORY_RELEASE"]⟩
            | .pending =>
              .ok ⟨"pending", Option.none, led1, stepsBase ++ ["PAYMENT_AUTHORIZE"]⟩
            | .success =>
              if collab.captureStatus ≠ Status.success then
                .ok ⟨"failed", some "capture_failed", led1,
                     stepsBase ++ ["PAYMENT_AUTHORIZE", "PAYMENT_CAPTURE"]⟩
              else if collab.fulStatus ≠ Status.success then
                .ok ⟨"failed", some "fulfillment_failed", led1,
                     stepsBase ++ ["PAYMENT_AUTHORIZE", "PAYMENT_CAPTURE", "FULFILLMENT_CREATE"]⟩
              else
                .ok ⟨"success", Option.none, led1,
                     stepsBase ++ ["PAYMENT_AUTHORIZE", "PAYMENT_CAPTURE",
                                   "FULFILLMENT_CREATE", "LOYALTY_ISSUE"]⟩

/-! ## Ledger operation traces -/

/-- A `(sku, qty)` line as the dictionary `{"sku": ..., "qty": ...}`. -/
def mkItem (p : String × Int) : Item := ⟨some (.str p.1), some (.int p.2), Option.none⟩

/-- One ledger call, with its environment inputs (the reserve timestamp). -/
inductive LOp where
  | check (lines : List (String × Int)) (preferred : PyVal)
  | reserve (order : String) (lines : List (String × Int)) (ts : Int)
  | release (rid : String)
deriving DecidableEq, Repr

/-- Placeholder for a call that would raise; never produced on the
well-typed traces the trace theorems quantify over. -/
def raiseResult : TaskResult := ⟨.failed, [], ["UNHANDLED_EXCEPTION"]⟩

def opRun (st : Ledger) : LOp → Ledger × TaskResult
  | .check lines p =>
    (st, match inventoryCheck st (lines.map mkItem) p with
         | .ok r => r
         | .error _ => raiseResult)
  | .reserve o lines ts =>
    match inventoryReserve st (.str o) (lines.map mkItem) (.int 30) ts with
    | .ok q => q
    | .error _ => (st, raiseResult)
  | .release rid =>
    match inventoryRelease st (.str rid) with
    | .ok q => q
    | .error _ => (st, raiseResult)

def runRes : Ledger → List LOp → Ledger × List TaskResult
  | st, [] => (st, [])
  | st, op :: rest =>
    let p := opRun st op
    let q := runRes p.1 rest
    (q.1, p.2 :: q.2)

def runOps (st : Ledger) (ops : List LOp) : Ledger := (runRes st ops).1

/-! ## Observations and predicates -/

/-- Total quantity of a SKU (0 when absent from the stock map). -/
def totalOf (st : Ledger) (k : PyVal) : Int :=
  match alook st.stock k with
  | some e => e.qty
  | Option.none => 0

/-- The int the code extracts from an item's `qty` field
(0 for a malformed field, which validated items never have). -/
def qtyIntOf (it : Item) : Int :=
  match it.qty with
  | some v => (match pyToInt v with | .ok n => n | .error _ => 0)
  | Option.none => 0

/-- Quantity of SKU `k` requested by an item list. -/
def reqOf : List Item → PyVal → Int
  | [], _ => 0
  | it :: rest, k => (if it.sku = some k then qtyIntOf it else 0) + reqOf rest k

def heldRecs : List (String × Reservation) → PyVal → Int
  | [], _ => 0
  | (_, r) :: rest, k => reqOf r.items k + heldRecs rest k

/-- Quantity of SKU `k` held by all currently stored reservations. -/
def heldAll (st : Ledger) (k : PyVal) : Int := heldRecs st.reservations k

/-- The per-line test of `_reserve` (lines 104-107): `sku` key present,
`qty` converts to an int, SKU known, and total quantity covers the request. -/
def lineOKB (st : Ledger) (it : Item) : Bool :=
  match it.sku, it.qty with
  | some sk, some v =>
    (match pyToInt v, alook st.stock sk with
     | .ok n, some e => decide (n ≤ e.qty)
     | _, _ => false)
  | _, _ => false

/-- Items whose `sku` key is present and whose `qty` value is a literal int. -/
def itemsTypedB (items : List Item) : Bool :=
  items.all fun it =>
    it.sku.isSome && (match it.qty with | some (.int _) => true | _ => false)

/-- Cart items that cannot make the flow raise: `qty` key present with a
literal int value (reserve does `int(it["qty"])`), `price` absent or an int
(the amount sum does `it.get("price", 0) * it.get("qty", 1)`). -/
def cartTypedB (cart : List Item) : Bool :=
  cart.all fun it =>
    (match it.qty with | some (.int _) => true | _ => false)
    && (match it.price with | Option.none => true | some (.int _) => true | _ => false)

/-- All stock keys are strings (true in every state reachable from the
initial stock map). -/
def strKeysB (st : Ledger) : Bool :=
  st.stock.all fun p => match p.1 with | .str _ => true | _ => false

def locSum : List (String × Int) → Int
  | [] => 0
  | (_, v) :: rest => v + locSum rest

/-- The StockEntry invariant of spec §3 for one entry: the total equals the
sum of its locations and every quantity is non-negative. -/
def entryOKB (e : StockEntry) : Bool :=
  decide (e.qty = locSum e.locations) && decide (0 ≤ e.qty)
    && e.locations.all (fun q => decide (0 ≤ q.2))

def InvB (st : Ledger) : Bool := st.stock.all fun p => entryOKB p.2

/-- Pairwise-distinct keys of an association list. -/
def nodupKeysB {α β : Type} [DecidableEq α] : List (α × β) → Bool
  | [] => true
  | (k, _) :: rest => (alook rest k).isNone && nodupKeysB rest

/-- Reserve calls whose lines name pairwise distinct SKUs with non-negative
quantities; check and release calls are unrestricted. -/
def goodOpB : LOp → Bool
  | .reserve _ lines _ => nodupKeysB lines && lines.all (fun l => decide (0 ≤ l.2))
  | _ => true

def goodOpsB (ops : List LOp) : Bool := ops.all goodOpB

/-- No reserve call in the trace reuses a reservation id already present in
the store at the moment it runs. -/
def noClashB : Ledger → List LOp → Bool
  | _, [] => true
  | st, op :: rest =>
    (match op with
     | .reserve o _ ts => (alook st.reservations (ridOf (.str o) ts)).isNone
     | _ => true)
    && noClashB (opRun st op).1 rest

/-! ## Dictionary lemmas -/

theorem alook_aset_self {α β : Type} [DecidableEq α] (l : List (α × β)) (k : α) (v : β) :
    alook (aset l k v) k = some v := by
  induction l with
  | nil => simp [aset, alook]
  | cons p rest ih =>
    obtain ⟨a, b⟩ := p
    by_cases h : a = k
    · subst h
      simp [aset, alook]
    · simp [aset, alook, h, ih]

theorem alook_aset_ne {α β : Type} [DecidableEq α] (l : List (α × β)) (k k' : α) (v : β)
    (h : ¬ k = k') : alook (aset l k v) k' = alook l k' := by
  induction l with
  | nil => simp [aset, alook, h]
  | cons p rest ih =>
    obtain ⟨a, b⟩ := p
    by_cases ha : a = k
    · subst ha
      simp [aset, alook, h]
    · by_cases hb : a = k'
      · simp [aset, alook, ha, hb, Ne.symm h]
      · simp [aset, alook, ha, hb, ih]

theorem alook_aset_isSome {α β : Type} [DecidableEq α] (l : List (α × β)) (k s : α) (v : β)
    (h : (alook l s).isSome = true) : (alook (aset l k v) s).isSome = true := by
  by_cases hk : k = s
  · subst hk
    rw [alook_aset_self]
    rfl
  · rw [alook_aset_ne _ _ _ _ hk]
    exact h

theorem alook_adel_ne {α β : Type} [DecidableEq α] (l : List (α × β)) (k k' : α)
    (h : ¬ k = k') : alook (adel l k) k' = alook l k' := by
  induction l with
  | nil => simp [adel]
  | cons p rest ih =>
    obtain ⟨a, b⟩ := p
    by_cases ha : a = k
    · subst ha
      simp [adel, alook, h]
    · by_cases hb : a = k'
      · simp [adel, alook, ha, hb, Ne.symm h]
      · simp [adel, alook, ha, hb, ih]

theorem alook_adel_self {α β : Type} [DecidableEq α] (l : List (α × β)) (k : α)
    (h : nodupKeysB l = true) : alook (adel l k) k = Option.none := by
  induction l with
  | nil => simp [adel, alook]
  | cons p rest ih =>
    obtain ⟨a, b⟩ := p
    simp [nodupKeysB] at h
    by_cases ha : a = k
    · subst ha
      simpa [adel] using h.1
    · simp [adel, alook, ha, ih h.2]

/-- Total of a SKU directly over a stock list. -/
def qtyAt (stock : List (PyVal × StockEntry)) (k : PyVal) : Int :=
  match alook stock k with
  | some e => e.qty
  | Option.none => 0

theorem totalOf_eq_qtyAt (st : Ledger) (k : PyVal) : totalOf st k = qtyAt st.stock k := rfl

theorem qtyAt_aset_self (stock : List (PyVal × StockEntry)) (k : PyVal) (e : StockEntry) :
    qtyAt (aset stock k e) k = e.qty := by
  simp [qtyAt, alook_aset_self]

theorem qtyAt_aset_ne (stock : List (PyVal × StockEntry)) (k k' : PyVal) (e : StockEntry)
    (h : ¬ k = k') : qtyAt (aset stock k e) k' = qtyAt stock k' := by
  simp [qtyAt, alook_aset_ne _ _ _ _ h]

/-! ## Validation-loop lemmas (`findShort`) -/

theorem findShort_none_of_all (st : Ledger) (items : List Item)
    (h : items.all (lineOKB st) = true) : findShort st items = .ok Option.none := by
  induction items with
  | nil => rfl
  | cons it rest ih =>
    simp only [List.all_cons, Bool.and_eq_true] at h
    obtain ⟨h1, h2⟩ := h
    cases hs : it.sku with
    | none => simp [lineOKB, hs] at h1
    | some sk =>
      cases hq : it.qty with
      | none => simp [lineOKB, hs, hq] at h1
      | some v =>
        simp only [lineOKB, hs, hq] at h1
        cases hp : pyToInt v with
        | error e => simp only [hp] at h1; simp at h1
        | ok n =>
          cases he : alook st.stock sk with
          | none => simp only [hp, he] at h1; simp at h1
          | some entry =>
            simp only [hp, he, decide_eq_true_eq] at h1
            simp [findShort, pyIndex, hs, hq, hp, he, if_neg (not_lt.mpr h1), ih h2]

theorem all_of_findShort_none (st : Ledger) (items : List Item)
    (h : findShort st items = .ok Option.none) : items.all (lineOKB st) = true := by
  induction items with
  | nil => rfl
  | cons it rest ih =>
    cases hs : it.sku with
    | none => simp [findShort, pyIndex, hs] at h
    | some sk =>
      cases hq : it.qty with
      | none => simp [findShort, pyIndex, hs, hq] at h
      | some v =>
        cases hp : pyToInt v with
        | error e => simp [findShort, pyIndex, hs, hq, hp] at h
        | ok n =>
          cases he : alook st.stock sk with
          | none => simp [findShort, pyIndex, hs, hq, hp, he] at h
          | some entry =>
            by_cases hlt : entry.qty < n
            · simp [findShort, pyIndex, hs, hq, hp, he, if_pos hlt] at h
            · rw [findShort] at h
              simp only [pyIndex, hs, hq, hp, he, if_neg hlt] at h
              simp [List.all_cons, lineOKB, hs, hq, hp, he, not_lt.mp hlt, ih h]

theorem findShort_some_of_not_all (st : Ledger) (items : List Item)
    (hty : itemsTypedB items = true) (h : items.all (lineOKB st) = false) :
    ∃ w, findShort st items = .ok (some w) := by
  induction items with
  | nil => simp at h
  | cons it rest ih =>
    simp only [itemsTypedB, List.all_cons, Bool.and_eq_true] at hty
    obtain ⟨⟨hsk, hqv⟩, hrest⟩ := hty
    rw [Option.isSome_iff_exists] at hsk
    obtain ⟨sk, hs⟩ := hsk
    cases hq : it.qty with
    | none => rw [hq] at hqv; simp at hqv
    | some v =>
      rw [hq] at hqv
      cases v with
      | int n =>
        cases he : alook st.stock sk with
        | none => exact ⟨sk, by simp [findShort, pyIndex, hs, hq, pyToInt, he]⟩
        | some entry =>
          by_cases hlt : entry.qty < n
          · exact ⟨sk, by simp [findShort, pyIndex, hs, hq, pyToInt, he, if_pos hlt]⟩
          · rw [List.all_cons] at h
            have hline : lineOKB st it = true := by
              rw [lineOKB, hs, hq]
              simp [pyToInt, he, not_lt.mp hlt]
            rw [hline, Bool.true_and] at h
            obtain ⟨w, hw⟩ := ih hrest h
            exact ⟨w, by simp [findShort, pyIndex, hs, hq, pyToInt, he, if_neg hlt, hw]⟩
      | str s => simp at hqv
      | bool b => simp at hqv
      | none => simp at hqv

/-! ## Mutation-loop lemmas (`applyLines`, `creditLines`) -/

/-- What the reserve mutation loop needs of a line: `sku`/`qty` keys present,
`qty` converts, and the SKU is a current stock key.  Implied by `lineOKB`. -/
def linePresentB (stock : List (PyVal × StockEntry)) (it : Item) : Bool :=
  match it.sku, it.qty with
  | some sk, some v =>
    (match pyToInt v with | .ok _ => true | .error _ => false) && (alook stock sk).isSome
  | _, _ => false

/-- What the release loop needs of a line: keys present and `qty` converts. -/
def lineParsesB (it : Item) : Bool :=
  match it.sku, it.qty with
  | some _, some v => (match pyToInt v with | .ok _ => true | .error _ => false)
  | _, _ => false

theorem linePresentB_elim (stock : List (PyVal × StockEntry)) (it : Item)
    (h : linePresentB stock it = true) :
    ∃ sk v n e, it.sku = some sk ∧ it.qty = some v ∧ pyToInt v = .ok n
      ∧ alook stock sk = some e := by
  cases hs : it.sku with
  | none => simp [linePresentB, hs] at h
  | some sk =>
    cases hq : it.qty with
    | none => simp [linePresentB, hs, hq] at h
    | some v =>
      simp only [linePresentB, hs, hq, Bool.and_eq_true] at h
      obtain ⟨hp, he⟩ := h
      cases hpv : pyToInt v with
      | error e => rw [hpv] at hp; simp at hp
      | ok n =>
        rw [Option.isSome_iff_exists] at he
        obtain ⟨e, he⟩ := he
        exact ⟨sk, v, n, e, rfl, rfl, hpv, he⟩

theorem lineParsesB_elim (it : Item) (h : lineParsesB it = true) :
    ∃ sk v n, it.sku = some sk ∧ it.qty = some v ∧ pyToInt v = .ok n := by
  cases hs : it.sku with
  | none => simp [lineParsesB, hs] at h
  | some sk =>
    cases hq : it.qty with
    | none => simp [lineParsesB, hs, hq] at h
    | some v =>
      simp only [lineParsesB, hs, hq] at h
      cases hpv : pyToInt v with
      | error e => rw [hpv] at h; simp at h
      | ok n => exact ⟨sk, v, n, rfl, rfl, hpv⟩

theorem linePresentB_of_lineOKB (st : Ledger) (it : Item) (h : lineOKB st it = true) :
    linePresentB st.stock it = true := by
  cases hs : it.sku with
  | none => simp [lineOKB, hs] at h
  | some sk =>
    cases hq : it.qty with
    | none => simp [lineOKB, hs, hq] at h
    | some v =>
      simp only [lineOKB, hs, hq] at h
      cases hpv : pyToInt v with
      | error e => rw [hpv] at h; simp at h
      | ok n =>
        cases he : alook st.stock sk with
        | none => rw [hpv, he] at h; simp at h
        | some entry => simp [linePresentB, hs, hq, hpv, he]

theorem lineParsesB_of_linePresentB (stock : List (PyVal × StockEntry)) (it : Item)
    (h : linePresentB stock it = true) : lineParsesB it = true := by
  obtain ⟨sk, v, n, e, hs, hq, hp, _⟩ := linePresentB_elim stock it h
  simp [lineParsesB, hs, hq, hp]

theorem linePresentB_aset (stock : List (PyVal × StockEntry)) (k : PyVal) (e : StockEntry)
    (it : Item) (h : linePresentB stock it = true) :
    linePresentB (aset stock k e) it = true := by
  obtain ⟨sk, v, n, e', hs, hq, hp, he⟩ := linePresentB_elim stock it h
  have : (alook (aset stock k e) sk).isSome = true :=
    alook_aset_isSome _ _ _ _ (by rw [he]; rfl)
  rw [Option.isSome_iff_exists] at this
  obtain ⟨e'', he''⟩ := this
  simp [linePresentB, hs, hq, hp, he'']

theorem all_linePresentB_aset (stock : List (PyVal × StockEntry)) (k : PyVal) (e : StockEntry)
    (items : List Item) (h : items.all (linePresentB stock) = true) :
    items.all (linePresentB (aset stock k e)) = true := by
  rw [List.all_eq_true] at h ⊢
  exact fun it hit => linePresentB_aset stock k e it (h it hit)

theorem reqOf_cons (it : Item) (rest : List Item) (k : PyVal) :
    reqOf (it :: rest) k = (if it.sku = some k then qtyIntOf it else 0) + reqOf rest k := rfl

theorem qtyIntOf_of_parse (it : Item) (v : PyVal) (n : Int)
    (hq : it.qty = some v) (hp : pyToInt v = .ok n) : qtyIntOf it = n := by
  simp [qtyIntOf, hq, hp]

theorem applyLines_ok (stock : List (PyVal × StockEntry)) (items : List Item)
    (h : items.all (linePresentB stock) = true) :
    ∃ stock', applyLines stock items = .ok stock'
      ∧ (∀ k, qtyAt stock' k = qtyAt stock k - reqOf items k)
      ∧ (∀ s, (alook stock s).isSome = true → (alook stock' s).isSome = true) := by
  induction items generalizing stock with
  | nil => exact ⟨stock, rfl, fun k => by simp [reqOf], fun s hs => hs⟩
  | cons it rest ih =>
    simp only [List.all_cons, Bool.and_eq_true] at h
    obtain ⟨h1, h2⟩ := h
    obtain ⟨sk, v, n, e, hs, hq, hp, he⟩ := linePresentB_elim stock it h1
    obtain ⟨stock', hrec, htot, hsome⟩ :=
      ih (aset stock sk ⟨e.qty - n, depleteLocs e.locations n⟩) (all_linePresentB_aset _ _ _ _ h2)
    refine ⟨stock', ?_, ?_, ?_⟩
    · simp [applyLines, pyIndex, hs, hq, hp, he, hrec]
    · intro k
      rw [htot k, reqOf_cons]
      by_cases hk : sk = k
      · subst hk
        rw [qtyAt_aset_self, if_pos (by rw [hs]), qtyIntOf_of_parse it v n hq hp]
        have : qtyAt stock sk = e.qty := by simp [qtyAt, he]
        dsimp only
        omega
      · rw [qtyAt_aset_ne _ _ _ _ hk, if_neg (by rw [hs]; exact fun c => hk (Option.some.inj c))]
        omega
    · exact fun s hs' => hsome s (alook_aset_isSome _ _ _ _ hs')

theorem creditLines_ok (stock : List (PyVal × StockEntry)) (items : List Item)
    (h : items.all lineParsesB = true) :
    ∃ stock', creditLines stock items = .ok stock'
      ∧ (∀ k, qtyAt stock' k = qtyAt stock k + reqOf items k)
      ∧ (∀ s, (alook stock s).isSome = true → (alook stock' s).isSome = true) := by
  induction items generalizing stock with
  | nil => exact ⟨stock, rfl, fun k => by simp [reqOf], fun s hs => hs⟩
  | cons it rest ih =>
    simp only [List.all_cons, Bool.and_eq_true] at h
    obtain ⟨h1, h2⟩ := h
    obtain ⟨sk, v, n, hs, hq, hp⟩ := lineParsesB_elim it h1
    cases he : alook stock sk with
    | none =>
      obtain ⟨stock', hrec, htot, hsome⟩ := ih (aset stock sk ⟨n, []⟩) h2
      refine ⟨stock', ?_, ?_, ?_⟩
      · simp [creditLines, pyIndex, hs, hq, hp, he, hrec]
      · intro k
        rw [htot k, reqOf_cons]
        by_cases hk : sk = k
        · subst hk
          rw [qtyAt_aset_self, if_pos (by rw [hs]), qtyIntOf_of_parse it v n hq hp]
          have : qtyAt stock sk = 0 := by simp [qtyAt, he]
          dsimp only
          omega
        · rw [qtyAt_aset_ne _ _ _ _ hk, if_neg (by rw [hs]; exact fun c => hk (Option.some.inj c))]
          omega
      · exact fun s hs' => hsome s (alook_aset_isSome _ _ _ _ hs')
    | some e =>
      obtain ⟨stock', hrec, htot, hsome⟩ :=
        ih (aset stock sk ⟨e.qty + n, bumpLoc e.locations "WAREHOUSE" n⟩) h2
      refine ⟨stock', ?_, ?_, ?_⟩
      · simp [creditLines, pyIndex, hs, hq, hp, he, hrec]
      · intro k
        rw [htot k, reqOf_cons]
        by_cases hk : sk = k
        · subst hk
          rw [qtyAt_aset_self, if_pos (by rw [hs]), qtyIntOf_of_parse it v n hq hp]
          have : qtyAt stock sk = e.qty := by simp [qtyAt, he]
          dsimp only
          omega
        · rw [qtyAt_aset_ne _ _ _ _ hk, if_neg (by rw [hs]; exact fun c => hk (Option.some.inj c))]
          omega
      · exact fun s hs' => hsome s (alook_aset_isSome _ _ _ _ hs')

/-! ## Inverting a successful `_reserve` -/

theorem reserve_success_inversion (st : Ledger) (order : PyVal) (items : List Item)
    (hold ts : Int) (st1 : Ledger) (r : TaskResult)
    (h : inventoryReserve st order items (.int hold) ts = .ok (st1, r))
    (hs : r.status = .success) :
    order.truthy = true ∧ items ≠ [] ∧ findShort st items = .ok Option.none
    ∧ applyLines st.stock items = .ok st1.stock
    ∧ st1.reservations = aset st.reservations (ridOf order ts) ⟨order, items, hold, ts⟩
    ∧ r = ⟨.success, [("reservation_id", .str (ridOf order ts))], []⟩ := by
  rw [inventoryReserve] at h
  simp only [pyToInt] at h
  cases hb : (!order.truthy || items.isEmpty) with
  | true =>
    rw [hb] at h
    simp only [if_true] at h
    have h2 := Except.ok.inj h
    have hr := congrArg Prod.snd h2
    dsimp at hr
    rw [← hr] at hs
    simp at hs
  | false =>
    rw [hb] at h
    simp only [Bool.false_eq_true, if_false] at h
    rw [Bool.or_eq_false_iff] at hb
    obtain ⟨hb1, hb2⟩ := hb
    rw [Bool.not_eq_false'] at hb1
    have hne : items ≠ [] := by
      intro hc
      rw [hc] at hb2
      simp at hb2
    cases hf : findShort st items with
    | error e => rw [hf] at h; simp at h
    | ok w =>
      cases w with
      | some w' =>
        rw [hf] at h
        simp only [] at h
        have h2 := Except.ok.inj h
        have hr := congrArg Prod.snd h2
        dsimp at hr
        rw [← hr] at hs
        simp at hs
      | none =>
        rw [hf] at h
        cases ha : applyLines st.stock items with
        | error e => rw [ha] at h; simp at h
        | ok stock' =>
          rw [ha] at h
          simp only [] at h
          have h2 := Except.ok.inj h
          have hst := congrArg Prod.fst h2
          have hr := congrArg Prod.snd h2
          dsimp at hst hr
          refine ⟨hb1, hne, rfl, ?_, ?_, hr.symm⟩
          · rw [← hst]
          · rw [← hst]

/-! ## Claim theorems -/

/-- **C1**: reserve is all-or-nothing.  For every ledger state and non-empty
item list with a truthy order id (lines of SKU and integer qty): if some
line's SKU is unknown or its total quantity is below the requested qty, the
call returns status failed with error code `INSUFFICIENT_STOCK` and the whole
ledger — totals, locations, reservations — is unchanged; if every line is
sufficient, it returns success and decrements each line's SKU total by the
requested qty. -/
theorem reserve_all_or_nothing (st : Ledger) (order : PyVal) (items : List Item)
    (hold ts : Int)
    (htr : order.truthy = true) (hne : items ≠ [])
    (hty : itemsTypedB items = true) :
    (items.all (lineOKB st) = false →
      inventoryReserve st order items (.int hold) ts
        = .ok (st, ⟨.failed, [], ["INSUFFICIENT_STOCK"]⟩))
    ∧ (items.all (lineOKB st) = true →
      ∃ st', inventoryReserve st order items (.int hold) ts
          = .ok (st', ⟨.success, [("reservation_id", .str (ridOf order ts))], []⟩)
        ∧ (∀ k, totalOf st' k = totalOf st k - reqOf items k)) := by
  have hie : items.isEmpty = false := by
    cases items with
    | nil => exact absurd rfl hne
    | cons a l => rfl
  constructor
  · intro hbad
    obtain ⟨w, hw⟩ := findShort_some_of_not_all st items hty hbad
    rw [inventoryReserve]
    simp [pyToInt, htr, hie, hw]
  · intro hgood
    have hfs := findShort_none_of_all st items hgood
    have hpres : items.all (linePresentB st.stock) = true := by
      rw [List.all_eq_true] at hgood ⊢
      exact fun it hit => linePresentB_of_lineOKB st it (hgood it hit)
    obtain ⟨stock', hap, htot, _⟩ := applyLines_ok st.stock items hpres
    refine ⟨⟨stock', aset st.reservations (ridOf order ts) ⟨order, items, hold, ts⟩⟩, ?_, ?_⟩
    · rw [inventoryReserve]
      simp [pyToInt, htr, hie, hfs, hap]
    · intro k
      rw [totalOf_eq_qtyAt, totalOf_eq_qtyAt]
      exact htot k

theorem reserve_all_or_nothing_witness :
    (([⟨some (.str "TSHIRT-BLUE-M"), some (.int 1), Option.none⟩] : List Item).all
        (lineOKB initialLedger) = false →
      inventoryReserve initialLedger (.str "o1")
          [⟨some (.str "TSHIRT-BLUE-M"), some (.int 1), Option.none⟩] (.int 30) 0
        = .ok (initialLedger, ⟨.failed, [], ["INSUFFICIENT_STOCK"]⟩))
    ∧ (([⟨some (.str "TSHIRT-BLUE-M"), some (.int 1), Option.none⟩] : List Item).all
        (lineOKB initialLedger) = true →
      ∃ st', inventoryReserve initialLedger (.str "o1")
          [⟨some (.str "TSHIRT-BLUE-M"), some (.int 1), Option.none⟩] (.int 30) 0
          = .ok (st', ⟨.success, [("reservation_id", .str (ridOf (.str "o1") 0))], []⟩)
        ∧ (∀ k, totalOf st' k = totalOf initialLedger k
            - reqOf [⟨some (.str "TSHIRT-BLUE-M"), some (.int 1), Option.none⟩] k)) :=
  reserve_all_or_nothing initialLedger (.str "o1")
    [⟨some (.str "TSHIRT-BLUE-M"), some (.int 1), Option.none⟩] 30 0
    (by decide) (by decide) (by decide)

/-- **C2**: release is one-shot consuming.  Releasing a stored reservation id
succeeds, credits each reserved SKU's total back, and removes the record; a
second release of the same id returns failed with `INVALID_RESERVATION` and
leaves the ledger unchanged, so stock is credited exactly once. -/
theorem release_one_shot (st : Ledger) (rid : String) (record : Reservation)
    (hne : (rid == "") = false)
    (hnd : nodupKeysB st.reservations = true)
    (hfound : alook st.reservations rid = some record)
    (hty : record.items.all lineParsesB = true) :
    ∃ st', inventoryRelease st (.str rid)
        = .ok (st', ⟨.success, [("released_reservation", .str rid)], []⟩)
      ∧ (∀ k, totalOf st' k = totalOf st k + reqOf record.items k)
      ∧ alook st'.reservations rid = Option.none
      ∧ inventoryRelease st' (.str rid) = .ok (st', ⟨.failed, [], ["INVALID_RESERVATION"]⟩) := by
  obtain ⟨stock', hcl, htot, _⟩ := creditLines_ok st.stock record.items hty
  refine ⟨⟨stock', adel st.reservations rid⟩, ?_, ?_, ?_, ?_⟩
  · rw [inventoryRelease]
    simp [PyVal.truthy, hne, hfound, hcl]
    simp [PyVal.truthy, hne]
  · intro k
    exact htot k
  · exact alook_adel_self _ _ hnd
  · rw [inventoryRelease]
    simp [PyVal.truthy, hne, alook_adel_self _ _ hnd]
    simp [PyVal.truthy, hne]

theorem release_one_shot_witness :
    ∃ st', inventoryRelease
        ⟨initialLedger.stock,
         [("res_o_1", ⟨.str "o", [⟨some (.str "HAT-BLK"), some (.int 2), Option.none⟩], 30, 1⟩)]⟩
        (.str "res_o_1")
        = .ok (st', ⟨.success, [("released_reservation", .str "res_o_1")], []⟩)
      ∧ (∀ k, totalOf st' k = totalOf
          ⟨initialLedger.stock,
           [("res_o_1", ⟨.str "o", [⟨some (.str "HAT-BLK"), some (.int 2), Option.none⟩], 30, 1⟩)]⟩ k
          + reqOf [⟨some (.str "HAT-BLK"), some (.int 2), Option.none⟩] k)
      ∧ alook st'.reservations "res_o_1" = Option.none
      ∧ inventoryRelease st' (.str "res_o_1")
          = .ok (st', ⟨.failed, [], ["INVALID_RESERVATION"]⟩) :=
  release_one_shot
    ⟨initialLedger.stock,
     [("res_o_1", ⟨.str "o", [⟨some (.str "HAT-BLK"), some (.int 2), Option.none⟩], 30, 1⟩)]⟩
    "res_o_1" ⟨.str "o", [⟨some (.str "HAT-BLK"), some (.int 2), Option.none⟩], 30, 1⟩
    (by decide) (by decide) (by decide) (by decide)

/-! ## Outcome case analyses and conservation -/

theorem inventoryReserve_cases (st : Ledger) (o : PyVal) (items : List Item) (hold ts : Int) :
    inventoryReserve st o items (.int hold) ts = .ok (st, ⟨.failed, [], ["MISSING_FIELDS"]⟩)
    ∨ inventoryReserve st o items (.int hold) ts = .ok (st, ⟨.failed, [], ["INSUFFICIENT_STOCK"]⟩)
    ∨ (∃ e, inventoryReserve st o items (.int hold) ts = .error e)
    ∨ (∃ stock', findShort st items = .ok Option.none
        ∧ applyLines st.stock items = .ok stock'
        ∧ inventoryReserve st o items (.int hold) ts
          = .ok (⟨stock', aset st.reservations (ridOf o ts) ⟨o, items, hold, ts⟩⟩,
                 ⟨.success, [("reservation_id", .str (ridOf o ts))], []⟩)) := by
  rw [inventoryReserve]
  simp only [pyToInt]
  by_cases hb : (!o.truthy || items.isEmpty) = true
  · rw [if_pos hb]
    exact Or.inl rfl
  · rw [if_neg hb]
    cases hf : findShort st items with
    | error e => exact Or.inr (Or.inr (Or.inl ⟨e, rfl⟩))
    | ok w =>
      cases w with
      | some w' => exact Or.inr (Or.inl rfl)
      | none =>
        cases ha : applyLines st.stock items with
        | error e => exact Or.inr (Or.inr (Or.inl ⟨e, rfl⟩))
        | ok stock' => exact Or.inr (Or.inr (Or.inr ⟨stock', rfl, rfl, rfl⟩))

theorem inventoryRelease_cases (st : Ledger) (rv : PyVal) :
    inventoryRelease st rv = .ok (st, ⟨.failed, [], ["INVALID_RESERVATION"]⟩)
    ∨ (∃ e, inventoryRelease st rv = .error e)
    ∨ (∃ rid record stock', rv = .str rid ∧ alook st.reservations rid = some record
        ∧ creditLines st.stock record.items = .ok stock'
        ∧ inventoryRelease st rv
          = .ok (⟨stock', adel st.reservations rid⟩,
                 ⟨.success, [("released_reservation", .str rid)], []⟩)) := by
  rw [inventoryRelease.eq_def]
  split
  · rename_i rid htr
    cases hr : alook st.reservations rid with
    | none => exact Or.inl rfl
    | some record =>
      dsimp only
      cases hc : creditLines st.stock record.items with
      | error e => exact Or.inr (Or.inl ⟨e, rfl⟩)
      | ok stock' =>
        exact Or.inr (Or.inr ⟨rid, record, stock', rfl, hr, hc, rfl⟩)
  · exact Or.inl rfl

theorem applyLines_totals (stock : List (PyVal × StockEntry)) (items : List Item)
    (stock' : List (PyVal × StockEntry)) (h : applyLines stock items = .ok stock') :
    ∀ k, qtyAt stock' k = qtyAt stock k - reqOf items k := by
  induction items generalizing stock with
  | nil =>
    intro k
    have : stock = stock' := Except.ok.inj h
    simp [this, reqOf]
  | cons it rest ih =>
    intro k
    cases hs : it.sku with
    | none => simp [applyLines, pyIndex, hs] at h
    | some sk =>
      cases hq : it.qty with
      | none => simp [applyLines, pyIndex, hs, hq] at h
      | some v =>
        cases hp : pyToInt v with
        | error e => simp [applyLines, pyIndex, hs, hq, hp] at h
        | ok n =>
          cases he : alook stock sk with
          | none => simp [applyLines, pyIndex, hs, hq, hp, he] at h
          | some entry =>
            rw [applyLines] at h
            simp only [pyIndex, hs, hq, hp, he] at h
            have hstep := ih _ h k
            rw [hstep, reqOf_cons]
            by_cases hk : sk = k
            · subst hk
              rw [qtyAt_aset_self, if_pos (by rw [hs]), qtyIntOf_of_parse it v n hq hp]
              have : qtyAt stock sk = entry.qty := by simp [qtyAt, he]
              dsimp only
              omega
            · rw [qtyAt_aset_ne _ _ _ _ hk,
                  if_neg (by rw [hs]; exact fun c => hk (Option.some.inj c))]
              omega

theorem creditLines_totals (stock : List (PyVal × StockEntry)) (items : List Item)
    (stock' : List (PyVal × StockEntry)) (h : creditLines stock items = .ok stock') :
    ∀ k, qtyAt stock' k = qtyAt stock k + reqOf items k := by
  induction items generalizing stock with
  | nil =>
    intro k
    have : stock = stock' := Except.ok.inj h
    simp [this, reqOf]
  | cons it rest ih =>
    intro k
    cases hs : it.sku with
    | none => simp [creditLines, pyIndex, hs] at h
    | some sk =>
      cases hq : it.qty with
      | none => simp [creditLines, pyIndex, hs, hq] at h
      | some v =>
        cases hp : pyToInt v with
        | error e => simp [creditLines, pyIndex, hs, hq, hp] at h
        | ok n =>
          cases he : alook stock sk with
          | none =>
            rw [creditLines] at h
            simp only [pyIndex, hs, hq, hp, he] at h
            have hstep := ih _ h k
            rw [hstep, reqOf_cons]
            by_cases hk : sk = k
            · subst hk
              rw [qtyAt_aset_self, if_pos (by rw [hs]), qtyIntOf_of_parse it v n hq hp]
              have : qtyAt stock sk = 0 := by simp [qtyAt, he]
              dsimp only
              omega
            · rw [qtyAt_aset_ne _ _ _ _ hk,
                  if_neg (by rw [hs]; exact fun c => hk (Option.some.inj c))]
              omega
          | some entry =>
            rw [creditLines] at h
            simp only [pyIndex, hs, hq, hp, he] at h
            have hstep := ih _ h k
            rw [hstep, reqOf_cons]
            by_cases hk : sk = k
            · subst hk
              rw [qtyAt_aset_self, if_pos (by rw [hs]), qtyIntOf_of_parse it v n hq hp]
              have : qtyAt stock sk = entry.qty := by simp [qtyAt, he]
              dsimp only
              omega
            · rw [qtyAt_aset_ne _ _ _ _ hk,
                  if_neg (by rw [hs]; exact fun c => hk (Option.some.inj c))]
              omega

theorem heldRecs_aset_fresh (recs : List (String × Reservation)) (rid : String)
    (record : Reservation) (k : PyVal) (h : alook recs rid = Option.none) :
    heldRecs (aset recs rid record) k = heldRecs recs k + reqOf record.items k := by
  induction recs with
  | nil => simp [aset, heldRecs]
  | cons p rest ih =>
    obtain ⟨a, b⟩ := p
    rw [alook] at h
    by_cases ha : a = rid
    · rw [if_pos ha] at h
      simp at h
    · rw [if_neg ha] at h
      rw [aset, if_neg ha, heldRecs, heldRecs, ih h]
      omega

theorem heldRecs_adel_found (recs : List (String × Reservation)) (rid : String)
    (record : Reservation) (k : PyVal) (h : alook recs rid = some record) :
    heldRecs (adel recs rid) k = heldRecs recs k - reqOf record.items k := by
  induction recs with
  | nil => simp [alook] at h
  | cons p rest ih =>
    obtain ⟨a, b⟩ := p
    rw [alook] at h
    by_cases ha : a = rid
    · rw [if_pos ha] at h
      have hb : b = record := Option.some.inj h
      subst hb
      rw [adel, if_pos ha, heldRecs]
      omega
    · rw [if_neg ha] at h
      rw [adel, if_neg ha, heldRecs, heldRecs, ih h]
      omega

/-- Freshness of the reservation id a reserve op would create. -/
def opFreshP (st : Ledger) : LOp → Prop
  | .reserve o _ ts => alook st.reservations (ridOf (.str o) ts) = Option.none
  | _ => True

theorem runOps_cons (st : Ledger) (op : LOp) (rest : List LOp) :
    runOps st (op :: rest) = runOps (opRun st op).1 rest := rfl

theorem opRun_conserves (st : Ledger) (op : LOp) (hf : opFreshP st op) (k : PyVal) :
    totalOf (opRun st op).1 k + heldAll (opRun st op).1 k = totalOf st k + heldAll st k := by
  cases op with
  | check lines p => rfl
  | release rid =>
    rcases inventoryRelease_cases st (.str rid) with h | ⟨e, h⟩ |
      ⟨rid', record, stock', hrv, hfound, hcl, h⟩
    · simp [opRun, h]
    · simp [opRun, h]
    · have hr : rid = rid' := PyVal.str.inj hrv
      subst hr
      simp only [opRun, h]
      rw [totalOf_eq_qtyAt, totalOf_eq_qtyAt]
      have ht := creditLines_totals _ _ _ hcl k
      have hh := heldRecs_adel_found st.reservations rid record k hfound
      dsimp
      rw [ht]
      unfold heldAll
      dsimp
      rw [hh]
      omega
  | reserve o lines ts =>
    rcases inventoryReserve_cases st (.str o) (lines.map mkItem) 30 ts with h | h | ⟨e, h⟩ |
      ⟨stock', hfsx, hap, h⟩
    · simp [opRun, h]
    · simp [opRun, h]
    · simp [opRun, h]
    · simp only [opRun, h]
      rw [totalOf_eq_qtyAt, totalOf_eq_qtyAt]
      have ht := applyLines_totals _ _ _ hap k
      have hh := heldRecs_aset_fresh st.reservations (ridOf (.str o) ts)
        ⟨.str o, lines.map mkItem, 30, ts⟩ k hf
      dsimp
      rw [ht]
      unfold heldAll
      dsimp
      rw [hh]
      dsimp
      omega

theorem run_conserves (st : Ledger) (ops : List LOp) (h : noClashB st ops = true) (k : PyVal) :
    totalOf (runOps st ops) k + heldAll (runOps st ops) k = totalOf st k + heldAll st k := by
  induction ops generalizing st with
  | nil => rfl
  | cons op rest ih =>
    simp only [noClashB, Bool.and_eq_true] at h
    obtain ⟨h1, h2⟩ := h
    have hf : opFreshP st op := by
      cases op with
      | reserve o lines ts => simpa [Option.isNone_iff_eq_none] using h1
      | check lines p => trivial
      | release rid => trivial
    have e1 := opRun_conserves st op hf k
    have e2 := ih (opRun st op).1 h2
    rw [runOps_cons]
    omega

/-- **C3 counterexample**: two completed reserve calls with the same order id
and the same wall-clock second build the same reservation id
(`res_o_0`); the second record overwrites the first, stock is decremented
twice but only one unit remains held, so total + held ≠ original quantity
(13 + 1 ≠ 15 for HAT-BLK). -/
theorem stock_conservation_cex :
    ¬ (totalOf (runOps initialLedger
          [.reserve "o" [("HAT-BLK", 1)] 0, .reserve "o" [("HAT-BLK", 1)] 0]) (.str "HAT-BLK")
        + heldAll (runOps initialLedger
          [.reserve "o" [("HAT-BLK", 1)] 0, .reserve "o" [("HAT-BLK", 1)] 0]) (.str "HAT-BLK")
        = totalOf initialLedger (.str "HAT-BLK")) := by decide

/-- **C3 (amended)**: stock conservation.  For every sequence of check,
reserve and release calls run sequentially from the initial ledger, in which
no reserve call reuses a reservation id (`res_<order_id>_<ts>`) already
present in the store when it runs, and for every SKU: the SKU's current
total quantity plus the quantity held for it by all currently stored
reservations equals its original quantity. -/
theorem stock_conservation (ops : List LOp) (k : PyVal)
    (h : noClashB initialLedger ops = true) :
    totalOf (runOps initialLedger ops) k + heldAll (runOps initialLedger ops) k
      = totalOf initialLedger k := by
  have hc := run_conserves initialLedger ops h k
  rw [hc]
  simp [heldAll, heldRecs, initialLedger]

theorem stock_conservation_witness :
    totalOf (runOps initialLedger
        [.reserve "a" [("HAT-BLK", 2)] 0, .reserve "b" [("HAT-BLK", 1)] 0,
         .release "res_a_0"]) (.str "HAT-BLK")
      + heldAll (runOps initialLedger
        [.reserve "a" [("HAT-BLK", 2)] 0, .reserve "b" [("HAT-BLK", 1)] 0,
         .release "res_a_0"]) (.str "HAT-BLK")
      = totalOf initialLedger (.str "HAT-BLK") :=
  stock_conservation
    [.reserve "a" [("HAT-BLK", 2)] 0, .reserve "b" [("HAT-BLK", 1)] 0, .release "res_a_0"]
    (.str "HAT-BLK") (by decide)

/-! ## Unit-reserve runs (concurrent reserve safety) -/

theorem unit_reserve_eval (st : Ledger) (o sku : String) (ts : Int) (e : StockEntry)
    (hs : alook st.stock (.str sku) = some e) (ho : (o == "") = false) :
    (0 < e.qty →
      opRun st (.reserve o [(sku, 1)] ts)
        = (⟨aset st.stock (.str sku) ⟨e.qty - 1, depleteLocs e.locations 1⟩,
            aset st.reservations (ridOf (.str o) ts)
              ⟨.str o, [mkItem (sku, 1)], 30, ts⟩⟩,
           ⟨.success, [("reservation_id", .str (ridOf (.str o) ts))], []⟩))
    ∧ (e.qty < 1 →
      opRun st (.reserve o [(sku, 1)] ts) = (st, ⟨.failed, [], ["INSUFFICIENT_STOCK"]⟩)) := by
  have htr : (PyVal.str o).truthy = true := by simp [PyVal.truthy, ho]
  constructor
  · intro hpos
    have hfs : findShort st [mkItem (sku, 1)] = .ok Option.none := by
      have h1 : ¬ (e.qty < 1) := by omega
      simp [findShort, mkItem, pyIndex, pyToInt, hs, if_neg h1]
    have hap : applyLines st.stock [mkItem (sku, 1)]
        = .ok (aset st.stock (.str sku) ⟨e.qty - 1, depleteLocs e.locations 1⟩) := by
      simp [applyLines, mkItem, pyIndex, pyToInt, hs]
    simp [opRun, inventoryReserve, pyToInt, htr, hfs, hap, List.map]
  · intro hneg
    have hfs : findShort st [mkItem (sku, 1)] = .ok (some (.str sku)) := by
      simp [findShort, mkItem, pyIndex, pyToInt, hs, if_pos hneg]
    simp [opRun, inventoryReserve, pyToInt, htr, hfs, List.map]

theorem runRes_cons (st : Ledger) (op : LOp) (rest : List LOp) :
    runRes st (op :: rest)
      = ((runRes (opRun st op).1 rest).1,
         (opRun st op).2 :: (runRes (opRun st op).1 rest).2) := rfl

/-- **C9**: concurrent reserve safety.  N `reserve` calls against one SKU
with total quantity Q, each requesting 1 unit — serialized in an arbitrary
order by the agent's global lock and therefore modelled as any sequential
interleaving — produce exactly `min N Q` successes followed by
`N - min N Q` failures, every failure carries `INSUFFICIENT_STOCK`, and the
final total quantity is `Q - min N Q`. -/
theorem concurrent_reserve_safety (sku : String) (meta : List (String × Int)) :
    ∀ (st : Ledger) (e : StockEntry) (Q : Nat),
      alook st.stock (.str sku) = some e →
      e.qty = (Q : Int) →
      meta.all (fun m => !(m.1 == "")) = true →
      ((runRes st (meta.map (fun m => LOp.reserve m.1 [(sku, 1)] m.2))).2.map TaskResult.status
         = List.replicate (min meta.length Q) .success
           ++ List.replicate (meta.length - min meta.length Q) .failed)
      ∧ (∀ tr ∈ (runRes st (meta.map (fun m => LOp.reserve m.1 [(sku, 1)] m.2))).2,
          tr.status = .failed → tr = ⟨.failed, [], ["INSUFFICIENT_STOCK"]⟩)
      ∧ totalOf (runRes st (meta.map (fun m => LOp.reserve m.1 [(sku, 1)] m.2))).1 (.str sku)
          = (Q : Int) - ((min meta.length Q : Nat) : Int) := by
  induction meta with
  | nil =>
    intro st e Q hs hq ho
    refine ⟨by simp [runRes], by simp [runRes], ?_⟩
    have h1 : totalOf st (.str sku) = (Q : Int) := by simp [totalOf, hs, hq]
    simp [runRes, h1]
  | cons m rest ih =>
    intro st e Q hs hq ho
    obtain ⟨o, ts⟩ := m
    simp only [List.all_cons, Bool.and_eq_true] at ho
    obtain ⟨ho1, ho2⟩ := ho
    have ho1' : (o == "") = false := by
      cases hoe : (o == "") with
      | true => rw [hoe] at ho1; simp at ho1
      | false => rfl
    have hev := unit_reserve_eval st o sku ts e hs ho1'
    cases Q with
    | zero =>
      have hq0 : e.qty = 0 := by exact_mod_cast hq
      have hrun := hev.2 (by omega)
      obtain ⟨ih1, ih2, ih3⟩ := ih st e 0 hs hq ho2
      refine ⟨?_, ?_, ?_⟩
      · simp only [List.map_cons, runRes_cons, hrun]
        rw [ih1]
        simp [List.replicate_succ]
      · intro tr htr hfail
        simp only [List.map_cons, runRes_cons, hrun] at htr
        rcases List.mem_cons.mp htr with h | h
        · rw [h]
        · exact ih2 tr h hfail
      · simp only [List.map_cons, runRes_cons, hrun]
        rw [ih3]
        simp
    | succ q =>
      have hpos : 0 < e.qty := by
        have hc : ((q + 1 : Nat) : Int) = (q : Int) + 1 := by push_cast; ring
        omega
      have hrun := hev.1 hpos
      have hs' : alook
          (aset st.stock (.str sku) ⟨e.qty - 1, depleteLocs e.locations 1⟩) (.str sku)
          = some ⟨e.qty - 1, depleteLocs e.locations 1⟩ := alook_aset_self _ _ _
      have hq' : (⟨e.qty - 1, depleteLocs e.locations 1⟩ : StockEntry).qty = (q : Int) := by
        dsimp
        have hc : ((q + 1 : Nat) : Int) = (q : Int) + 1 := by push_cast; ring
        omega
      obtain ⟨ih1, ih2, ih3⟩ :=
        ih ⟨aset st.stock (.str sku) ⟨e.qty - 1, depleteLocs e.locations 1⟩,
            aset st.reservations (ridOf (.str o) ts)
              ⟨.str o, [mkItem (sku, 1)], 30, ts⟩⟩
          ⟨e.qty - 1, depleteLocs e.locations 1⟩ q hs' hq' ho2
      refine ⟨?_, ?_, ?_⟩
      · simp only [List.map_cons, runRes_cons, hrun]
        have hm : min (((o, ts) :: rest).length) (q + 1) = min rest.length q + 1 := by
          simp only [List.length_cons]
          omega
        rw [ih1, hm, List.replicate_succ]
        have hm3 : ((o, ts) :: rest).length - (min rest.length q + 1)
            = rest.length - min rest.length q := by
          simp only [List.length_cons]
          omega
        rw [hm3]
        simp
      · intro tr htr hfail
        simp only [List.map_cons, runRes_cons, hrun] at htr
        rcases List.mem_cons.mp htr with h | h
        · rw [h] at hfail
          simp at hfail
        · exact ih2 tr h hfail
      · simp only [List.map_cons, runRes_cons, hrun]
        rw [ih3]
        simp only [List.length_cons]
        push_cast
        omega

theorem concurrent_reserve_safety_witness :
    ((runRes initialLedger
        ([("w", 0), ("x", 0), ("y", 0)].map
          (fun m => LOp.reserve m.1 [("JEANS-BLK-32", 1)] m.2))).2.map TaskResult.status
       = List.replicate (min 3 6) .success ++ List.replicate (3 - min 3 6) .failed)
    ∧ (∀ tr ∈ (runRes initialLedger
        ([("w", 0), ("x", 0), ("y", 0)].map
          (fun m => LOp.reserve m.1 [("JEANS-BLK-32", 1)] m.2))).2,
        tr.status = .failed → tr = ⟨.failed, [], ["INSUFFICIENT_STOCK"]⟩)
    ∧ totalOf (runRes initialLedger
        ([("w", 0), ("x", 0), ("y", 0)].map
          (fun m => LOp.reserve m.1 [("JEANS-BLK-32", 1)] m.2))).1 (.str "JEANS-BLK-32")
        = (6 : Int) - ((min 3 6 : Nat) : Int) :=
  concurrent_reserve_safety "JEANS-BLK-32" [("w", 0), ("x", 0), ("y", 0)]
    initialLedger ⟨6, [("STORE_2", 6)]⟩ 6 (by decide) (by decide) (by decide)

/-! ## Reservation id collisions -/

theorem ridOf_ne_empty (o : PyVal) (ts : Int) : ¬ (ridOf o ts = "") := by
  intro h
  have hl := congrArg String.length h
  rw [ridOf] at hl
  simp only [String.length_append] at hl
  have h4 : "res_".length = 4 := rfl
  have h1 : "_".length = 1 := rfl
  rw [h4, h1] at hl
  have h0 : "".length = 0 := rfl
  rw [h0] at hl
  omega

theorem ridOf_beq_empty (o : PyVal) (ts : Int) : (ridOf o ts == "") = false := by
  rw [beq_eq_false_iff_ne]
  exact ridOf_ne_empty o ts

theorem ridOf_truthy (o : PyVal) (ts : Int) : (PyVal.str (ridOf o ts)).truthy = true := by
  simp [PyVal.truthy, ridOf_beq_empty]

theorem all_lineParsesB_of_lineOKB (st : Ledger) (items : List Item)
    (h : items.all (lineOKB st) = true) : items.all lineParsesB = true := by
  rw [List.all_eq_true] at h ⊢
  exact fun it hit =>
    lineParsesB_of_linePresentB st.stock it (linePresentB_of_lineOKB st it (h it hit))

/-- **C10**: reservation id collision overwrites.  Two successful reserve
calls with the same order id and the same creation second return the
identical reservation id `res_<order>_<ts>`; the second record replaces the
first in the store; stock is decremented for both calls' items; and a
subsequent release of that id restores only the second call's items, so the
ledger ends at original-minus-the-first-call's quantities. -/
theorem reservation_collision_overwrite (st : Ledger) (o : String) (ts : Int)
    (lines1 lines2 : List (String × Int))
    (ho : (o == "") = false)
    (h1ne : lines1 ≠ []) (h2ne : lines2 ≠ [])
    (hv1 : (lines1.map mkItem).all (lineOKB st) = true)
    (hv2 : (lines2.map mkItem).all
        (lineOKB (opRun st (.reserve o lines1 ts)).1) = true) :
    ∃ st1 st2 st3,
      inventoryReserve st (.str o) (lines1.map mkItem) (.int 30) ts
        = .ok (st1, ⟨.success, [("reservation_id", .str (ridOf (.str o) ts))], []⟩)
      ∧ inventoryReserve st1 (.str o) (lines2.map mkItem) (.int 30) ts
        = .ok (st2, ⟨.success, [("reservation_id", .str (ridOf (.str o) ts))], []⟩)
      ∧ alook st2.reservations (ridOf (.str o) ts)
          = some ⟨.str o, lines2.map mkItem, 30, ts⟩
      ∧ (∀ k, totalOf st2 k
          = totalOf st k - reqOf (lines1.map mkItem) k - reqOf (lines2.map mkItem) k)
      ∧ inventoryRelease st2 (.str (ridOf (.str o) ts))
          = .ok (st3, ⟨.success, [("released_reservation", .str (ridOf (.str o) ts))], []⟩)
      ∧ (∀ k, totalOf st3 k = totalOf st k - reqOf (lines1.map mkItem) k) := by
  have htr : (PyVal.str o).truthy = true := by simp [PyVal.truthy, ho]
  have hie1 : (lines1.map mkItem).isEmpty = false := by
    cases lines1 with
    | nil => exact absurd rfl h1ne
    | cons a l => rfl
  have hie2 : (lines2.map mkItem).isEmpty = false := by
    cases lines2 with
    | nil => exact absurd rfl h2ne
    | cons a l => rfl
  -- first reserve
  have hfs1 := findShort_none_of_all st (lines1.map mkItem) hv1
  have hpres1 : (lines1.map mkItem).all (linePresentB st.stock) = true := by
    rw [List.all_eq_true] at hv1 ⊢
    exact fun it hit => linePresentB_of_lineOKB st it (hv1 it hit)
  obtain ⟨stock1, hap1, htot1, _⟩ := applyLines_ok st.stock (lines1.map mkItem) hpres1
  have hres1 : inventoryReserve st (.str o) (lines1.map mkItem) (.int 30) ts
      = .ok (⟨stock1,
              aset st.reservations (ridOf (.str o) ts) ⟨.str o, lines1.map mkItem, 30, ts⟩⟩,
             ⟨.success, [("reservation_id", .str (ridOf (.str o) ts))], []⟩) := by
    rw [inventoryReserve]
    simp [pyToInt, htr, hie1, hfs1, hap1]
  have hop1 : (opRun st (.reserve o lines1 ts)).1
      = ⟨stock1,
         aset st.reservations (ridOf (.str o) ts) ⟨.str o, lines1.map mkItem, 30, ts⟩⟩ := by
    simp [opRun, hres1]
  rw [hop1] at hv2
  -- second reserve from the post-first state
  have hfs2 := findShort_none_of_all _ (lines2.map mkItem) hv2
  have hpres2 : (lines2.map mkItem).all (linePresentB stock1) = true := by
    rw [List.all_eq_true] at hv2 ⊢
    exact fun it hit => linePresentB_of_lineOKB _ it (hv2 it hit)
  obtain ⟨stock2, hap2, htot2, _⟩ := applyLines_ok stock1 (lines2.map mkItem) hpres2
  have hres2 : inventoryReserve
      ⟨stock1, aset st.reservations (ridOf (.str o) ts) ⟨.str o, lines1.map mkItem, 30, ts⟩⟩
      (.str o) (lines2.map mkItem) (.int 30) ts
      = .ok (⟨stock2,
              aset (aset st.reservations (ridOf (.str o) ts) ⟨.str o, lines1.map mkItem, 30, ts⟩)
                (ridOf (.str o) ts) ⟨.str o, lines2.map mkItem, 30, ts⟩⟩,
             ⟨.success, [("reservation_id", .str (ridOf (.str o) ts))], []⟩) := by
    rw [inventoryReserve]
    simp [pyToInt, htr, hie2, hfs2, hap2]
  -- release of the collided id
  have hty2 : (lines2.map mkItem).all lineParsesB = true :=
    all_lineParsesB_of_lineOKB _ _ hv2
  obtain ⟨stock3, hcl, htot3, _⟩ := creditLines_ok stock2 (lines2.map mkItem) hty2
  refine ⟨_, _, ⟨stock3, adel
      (aset (aset st.reservations (ridOf (.str o) ts) ⟨.str o, lines1.map mkItem, 30, ts⟩)
        (ridOf (.str o) ts) ⟨.str o, lines2.map mkItem, 30, ts⟩) (ridOf (.str o) ts)⟩,
    hres1, hres2, ?_, ?_, ?_, ?_⟩
  · exact alook_aset_self _ _ _
  · intro k
    rw [totalOf_eq_qtyAt, totalOf_eq_qtyAt]
    dsimp
    rw [htot2 k, htot1 k]
  · rw [inventoryRelease]
    simp [ridOf_truthy, ridOf_beq_empty, alook_aset_self, hcl]
    exact ridOf_truthy _ _
  · intro k
    rw [totalOf_eq_qtyAt, totalOf_eq_qtyAt]
    dsimp
    rw [htot3 k, htot2 k, htot1 k]
    omega

theorem reservation_collision_overwrite_witness :
    ∃ st1 st2 st3,
      inventoryReserve initialLedger (.str "ord1")
          ([("TSHIRT-RED-XL", 2)].map mkItem) (.int 30) 7
        = .ok (st1, ⟨.success, [("reservation_id", .str (ridOf (.str "ord1") 7))], []⟩)
      ∧ inventoryReserve st1 (.str "ord1") ([("HAT-BLK", 3)].map mkItem) (.int 30) 7
        = .ok (st2, ⟨.success, [("reservation_id", .str (ridOf (.str "ord1") 7))], []⟩)
      ∧ alook st2.reservations (ridOf (.str "ord1") 7)
          = some ⟨.str "ord1", [("HAT-BLK", 3)].map mkItem, 30, 7⟩
      ∧ (∀ k, totalOf st2 k
          = totalOf initialLedger k - reqOf ([("TSHIRT-RED-XL", 2)].map mkItem) k
            - reqOf ([("HAT-BLK", 3)].map mkItem) k)
      ∧ inventoryRelease st2 (.str (ridOf (.str "ord1") 7))
          = .ok (st3, ⟨.success, [("released_reservation", .str (ridOf (.str "ord1") 7))], []⟩)
      ∧ (∀ k, totalOf st3 k
          = totalOf initialLedger k - reqOf ([("TSHIRT-RED-XL", 2)].map mkItem) k) :=
  reservation_collision_overwrite initialLedger "ord1" 7
    [("TSHIRT-RED-XL", 2)] [("HAT-BLK", 3)]
    (by decide) (by decide) (by decide) (by decide) (by decide)

/-! ## StockEntry invariant machinery -/

theorem depleteLocs_sum (locs : List (String × Int)) (q : Int)
    (hq : 0 ≤ q) (hle : q ≤ locSum locs) (hnn : ∀ p ∈ locs, 0 ≤ p.2) :
    locSum (depleteLocs locs q) = locSum locs - q := by
  induction locs generalizing q with
  | nil =>
    simp only [locSum] at hle
    simp only [depleteLocs, locSum]
    omega
  | cons x rest ih =>
    obtain ⟨l, v⟩ := x
    simp only [locSum] at hle
    rw [depleteLocs]
    by_cases hc : q ≤ v
    · rw [if_pos hc]
      simp only [locSum]
      omega
    · rw [if_neg hc]
      have hv : 0 ≤ v := hnn (l, v) (List.mem_cons_self _ _)
      have hrest : ∀ p ∈ rest, 0 ≤ p.2 := fun p hp => hnn p (List.mem_cons_of_mem _ hp)
      have := ih (q - v) (by omega) (by omega) hrest
      simp only [locSum]
      omega

theorem depleteLocs_nonneg (locs : List (String × Int)) (q : Int)
    (hq : 0 ≤ q) (hnn : ∀ p ∈ locs, 0 ≤ p.2) :
    ∀ p ∈ depleteLocs locs q, 0 ≤ p.2 := by
  induction locs generalizing q with
  | nil => intro p hp; simp [depleteLocs] at hp
  | cons x rest ih =>
    obtain ⟨l, v⟩ := x
    intro p hp
    rw [depleteLocs] at hp
    by_cases hc : q ≤ v
    · rw [if_pos hc] at hp
      rcases List.mem_cons.mp hp with h | h
      · rw [h]
        dsimp
        have := hnn (l, v) (List.mem_cons_self _ _)
        omega
      · exact hnn p (List.mem_cons_of_mem _ h)
    · rw [if_neg hc] at hp
      rcases List.mem_cons.mp hp with h | h
      · simp [h]
      · exact ih (q - v) (by omega)
          (fun p' hp' => hnn p' (List.mem_cons_of_mem _ hp')) p h

theorem bumpLoc_sum (locs : List (String × Int)) (key : String) (q : Int) :
    locSum (bumpLoc locs key q) = locSum locs + q := by
  induction locs with
  | nil => simp [bumpLoc, locSum]
  | cons x rest ih =>
    obtain ⟨l, v⟩ := x
    rw [bumpLoc]
    by_cases hc : l = key
    · rw [if_pos hc]
      simp only [locSum]
      omega
    · rw [if_neg hc]
      by_cases ho : compare key l = Ordering.lt
      · rw [if_pos ho]
        simp only [locSum]
        omega
      · rw [if_neg ho]
        simp only [locSum]
        omega

theorem bumpLoc_nonneg (locs : List (String × Int)) (key : String) (q : Int)
    (hq : 0 ≤ q) (hnn : ∀ p ∈ locs, 0 ≤ p.2) :
    ∀ p ∈ bumpLoc locs key q, 0 ≤ p.2 := by
  induction locs with
  | nil =>
    intro p hp
    rw [bumpLoc] at hp
    rcases List.mem_singleton.mp hp with h
    rw [h]
    exact hq
  | cons x rest ih =>
    obtain ⟨l, v⟩ := x
    intro p hp
    rw [bumpLoc] at hp
    by_cases hc : l = key
    · rw [if_pos hc] at hp
      rcases List.mem_cons.mp hp with h | h
      · rw [h]
        dsimp
        have := hnn (l, v) (List.mem_cons_self _ _)
        omega
      · exact hnn p (List.mem_cons_of_mem _ h)
    · rw [if_neg hc] at hp
      by_cases ho : compare key l = Ordering.lt
      · rw [if_pos ho] at hp
        rcases List.mem_cons.mp hp with h | h
        · rw [h]
          exact hq
        · exact hnn p h
      · rw [if_neg ho] at hp
        rcases List.mem_cons.mp hp with h | h
        · rw [h]
          exact hnn (l, v) (List.mem_cons_self _ _)
        · exact ih (fun p' hp' => hnn p' (List.mem_cons_of_mem _ hp')) p h

/-- `InvB` at the stock-list level. -/
def stockInvB (stock : List (PyVal × StockEntry)) : Bool :=
  stock.all fun p => entryOKB p.2

theorem InvB_eq_stockInvB (st : Ledger) : InvB st = stockInvB st.stock := rfl

theorem entryOKB_elim (e : StockEntry) (h : entryOKB e = true) :
    e.qty = locSum e.locations ∧ 0 ≤ e.qty ∧ ∀ p ∈ e.locations, 0 ≤ p.2 := by
  simp only [entryOKB, Bool.and_eq_true, decide_eq_true_eq, List.all_eq_true] at h
  exact ⟨h.1.1, h.1.2, fun p hp => by
    have := h.2 p hp
    simpa using this⟩

theorem entryOKB_intro (e : StockEntry) (h1 : e.qty = locSum e.locations)
    (h2 : 0 ≤ e.qty) (h3 : ∀ p ∈ e.locations, 0 ≤ p.2) : entryOKB e = true := by
  simp only [entryOKB, Bool.and_eq_true, decide_eq_true_eq, List.all_eq_true]
  exact ⟨⟨h1, h2⟩, fun p hp => by simpa using h3 p hp⟩

theorem entryOKB_of_alook (stock : List (PyVal × StockEntry)) (k : PyVal) (e : StockEntry)
    (hs : stockInvB stock = true) (he : alook stock k = some e) : entryOKB e = true := by
  induction stock with
  | nil => simp [alook] at he
  | cons p rest ih =>
    obtain ⟨a, b⟩ := p
    simp only [stockInvB, List.all_cons, Bool.and_eq_true] at hs
    rw [alook] at he
    by_cases ha : a = k
    · rw [if_pos ha] at he
      rw [← Option.some.inj he]
      exact hs.1
    · rw [if_neg ha] at he
      exact ih hs.2 he

theorem stockInvB_aset (stock : List (PyVal × StockEntry)) (k : PyVal) (e : StockEntry)
    (hs : stockInvB stock = true) (he : entryOKB e = true) :
    stockInvB (aset stock k e) = true := by
  induction stock with
  | nil => simp [aset, stockInvB, he]
  | cons p rest ih =>
    obtain ⟨a, b⟩ := p
    simp only [stockInvB, List.all_cons, Bool.and_eq_true] at hs
    rw [aset]
    by_cases ha : a = k
    · rw [if_pos ha]
      simp only [stockInvB, List.all_cons, Bool.and_eq_true]
      exact ⟨he, hs.2⟩
    · rw [if_neg ha]
      simp only [stockInvB, List.all_cons, Bool.and_eq_true]
      exact ⟨hs.1, ih hs.2⟩

theorem alook_none_mem {α β : Type} [DecidableEq α] (l : List (α × β)) (k : α)
    (h : alook l k = Option.none) : ∀ p ∈ l, p.1 ≠ k := by
  induction l with
  | nil => intro p hp; simp at hp
  | cons x rest ih =>
    obtain ⟨a, b⟩ := x
    rw [alook] at h
    by_cases ha : a = k
    · rw [if_pos ha] at h
      simp at h
    · rw [if_neg ha] at h
      intro p hp
      rcases List.mem_cons.mp hp with hh | hh
      · rw [hh]
        exact ha
      · exact ih h p hh

theorem lineOKB_mkItem_elim (st : Ledger) (l : String × Int)
    (h : lineOKB st (mkItem l) = true) :
    ∃ e, alook st.stock (.str l.1) = some e ∧ l.2 ≤ e.qty := by
  simp only [lineOKB, mkItem, pyToInt] at h
  cases he : alook st.stock (.str l.1) with
  | none => rw [he] at h; simp at h
  | some e =>
    rw [he] at h
    simp only [decide_eq_true_eq] at h
    exact ⟨e, rfl, h⟩

theorem applyLines_inv (lines : List (String × Int)) :
    ∀ (stock stock' : List (PyVal × StockEntry)),
      stockInvB stock = true →
      nodupKeysB lines = true →
      (∀ l ∈ lines, (0:Int) ≤ l.2) →
      (∀ l ∈ lines, ∃ e, alook stock (.str l.1) = some e ∧ l.2 ≤ e.qty) →
      applyLines stock (lines.map mkItem) = .ok stock' →
      stockInvB stock' = true
        ∧ (∀ s, (alook stock s).isSome = true → (alook stock' s).isSome = true) := by
  induction lines with
  | nil =>
    intro stock stock' hs _ _ _ hap
    simp only [List.map_nil, applyLines] at hap
    have heq := Except.ok.inj hap
    subst heq
    exact ⟨hs, fun s h => h⟩
  | cons l rest ih =>
    intro stock stock' hs hnd hpos hval hap
    obtain ⟨s0, q0⟩ := l
    obtain ⟨e, he, hqe⟩ := hval (s0, q0) (List.mem_cons_self _ _)
    rw [List.map_cons, applyLines] at hap
    simp only [mkItem, pyIndex, pyToInt, he] at hap
    have hek := entryOKB_of_alook stock (.str s0) e hs he
    obtain ⟨heq, hge, hloc⟩ := entryOKB_elim e hek
    have hq0 : (0:Int) ≤ q0 := hpos (s0, q0) (List.mem_cons_self _ _)
    have hsum : locSum (depleteLocs e.locations q0) = locSum e.locations - q0 :=
      depleteLocs_sum _ _ hq0 (by omega) hloc
    have hnn' := depleteLocs_nonneg e.locations q0 hq0 hloc
    have hek' : entryOKB ⟨e.qty - q0, depleteLocs e.locations q0⟩ = true := by
      refine entryOKB_intro _ ?_ ?_ ?_
      · dsimp
        omega
      · dsimp
        omega
      · dsimp
        exact hnn'
    have hs1 : stockInvB (aset stock (.str s0) ⟨e.qty - q0, depleteLocs e.locations q0⟩)
        = true := stockInvB_aset _ _ _ hs hek'
    simp only [nodupKeysB, Bool.and_eq_true] at hnd
    obtain ⟨hnd1, hnd2⟩ := hnd
    have hne : ∀ l' ∈ rest, l'.1 ≠ s0 := fun l' hl' =>
      alook_none_mem rest s0 (by rwa [Option.isNone_iff_eq_none] at hnd1) l' hl'
    have hval' : ∀ l' ∈ rest,
        ∃ e'', alook (aset stock (.str s0) ⟨e.qty - q0, depleteLocs e.locations q0⟩)
          (.str l'.1) = some e'' ∧ l'.2 ≤ e''.qty := by
      intro l' hl'
      obtain ⟨e'', he'', hb⟩ := hval l' (List.mem_cons_of_mem _ hl')
      refine ⟨e'', ?_, hb⟩
      rw [alook_aset_ne]
      · exact he''
      · intro hc
        exact (hne l' hl') (PyVal.str.inj hc).symm
    obtain ⟨hres, hmono⟩ :=
      ih _ _ hs1 hnd2 (fun l' hl' => hpos l' (List.mem_cons_of_mem _ hl')) hval' hap
    exact ⟨hres, fun s hset => hmono s (alook_aset_isSome _ _ _ _ hset)⟩

theorem creditLines_inv (items : List Item) :
    ∀ (stock stock' : List (PyVal × StockEntry)),
      stockInvB stock = true →
      (∀ it ∈ items, ∃ sk n, it.sku = some sk ∧ it.qty = some (.int n) ∧ 0 ≤ n
        ∧ (alook stock sk).isSome = true) →
      creditLines stock items = .ok stock' →
      stockInvB stock' = true
        ∧ (∀ s, (alook stock s).isSome = true → (alook stock' s).isSome = true) := by
  induction items with
  | nil =>
    intro stock stock' hs _ hcl
    simp only [creditLines] at hcl
    have heq := Except.ok.inj hcl
    subst heq
    exact ⟨hs, fun s h => h⟩
  | cons it rest ih =>
    intro stock stock' hs hgood hcl
    obtain ⟨sk, n, hsk, hqy, hn, hpres⟩ := hgood it (List.mem_cons_self _ _)
    rw [Option.isSome_iff_exists] at hpres
    obtain ⟨e, he⟩ := hpres
    rw [creditLines] at hcl
    simp only [pyIndex, hsk, hqy, pyToInt, he] at hcl
    have hek := entryOKB_of_alook stock sk e hs he
    obtain ⟨heq, hge, hloc⟩ := entryOKB_elim e hek
    have hek' : entryOKB ⟨e.qty + n, bumpLoc e.locations "WAREHOUSE" n⟩ = true := by
      refine entryOKB_intro _ ?_ ?_ ?_
      · dsimp
        rw [bumpLoc_sum]
        omega
      · dsimp
        omega
      · dsimp
        exact bumpLoc_nonneg _ _ _ hn hloc
    have hs1 := stockInvB_aset _ sk _ hs hek'
    have hgood' : ∀ it' ∈ rest, ∃ sk' n', it'.sku = some sk' ∧ it'.qty = some (.int n')
        ∧ 0 ≤ n' ∧ (alook (aset stock sk ⟨e.qty + n, bumpLoc e.locations "WAREHOUSE" n⟩) sk').isSome
          = true := by
      intro it' hit'
      obtain ⟨sk', n', h1, h2, h3, h4⟩ := hgood it' (List.mem_cons_of_mem _ hit')
      exact ⟨sk', n', h1, h2, h3, alook_aset_isSome _ _ _ _ h4⟩
    obtain ⟨hres, hmono⟩ := ih _ _ hs1 hgood' hcl
    exact ⟨hres, fun s h => hmono s (alook_aset_isSome _ _ _ _ h)⟩

/-- An item as stored in a reservation record that release can safely
credit: present `sku`, literal non-negative int `qty`. -/
def itemGoodB (it : Item) : Bool :=
  match it.sku, it.qty with
  | some _, some (.int n) => decide (0 ≤ n)
  | _, _ => false

/-- Every stored reservation's items are good and name current stock keys. -/
def recItemsOKB (stock : List (PyVal × StockEntry))
    (recs : List (String × Reservation)) : Bool :=
  recs.all fun p => p.2.items.all fun it =>
    itemGoodB it
    && (match it.sku with
        | some sk => (alook stock sk).isSome
        | Option.none => false)

/-- Invariant of every state reachable from the initial ledger under
well-formed operations: the StockEntry invariant plus well-formed stored
reservations. -/
def ReachB (st : Ledger) : Bool := InvB st && recItemsOKB st.stock st.reservations

theorem recItem_elim (stock : List (PyVal × StockEntry)) (it : Item)
    (h : (itemGoodB it
      && (match it.sku with
          | some sk => (alook stock sk).isSome
          | Option.none => false)) = true) :
    ∃ sk n, it.sku = some sk ∧ it.qty = some (.int n) ∧ 0 ≤ n
      ∧ (alook stock sk).isSome = true := by
  rw [Bool.and_eq_true] at h
  obtain ⟨hg, hp⟩ := h
  cases hsk : it.sku with
  | none => rw [hsk] at hp; simp at hp
  | some sk =>
    rw [hsk] at hp
    cases hq : it.qty with
    | none => simp [itemGoodB, hsk, hq] at hg
    | some v =>
      cases v with
      | int n =>
        simp only [itemGoodB, hsk, hq, decide_eq_true_eq] at hg
        exact ⟨sk, n, rfl, rfl, hg, by simpa using hp⟩
      | str s => simp [itemGoodB, hsk, hq] at hg
      | bool b => simp [itemGoodB, hsk, hq] at hg
      | none => simp [itemGoodB, hsk, hq] at hg

theorem recItemsOKB_mono (stock stock' : List (PyVal × StockEntry))
    (recs : List (String × Reservation))
    (hm : ∀ s, (alook stock s).isSome = true → (alook stock' s).isSome = true)
    (h : recItemsOKB stock recs = true) : recItemsOKB stock' recs = true := by
  rw [recItemsOKB, List.all_eq_true] at h
  rw [recItemsOKB, List.all_eq_true]
  intro p hp
  have hh := h p hp
  rw [List.all_eq_true] at hh
  rw [List.all_eq_true]
  intro it hit
  have ht := hh it hit
  rw [Bool.and_eq_true] at ht
  obtain ⟨h1, h2⟩ := ht
  rw [Bool.and_eq_true]
  refine ⟨h1, ?_⟩
  cases hsk : it.sku with
  | none => rw [hsk] at h2; simp at h2
  | some sk =>
    rw [hsk] at h2
    simpa using hm sk (by simpa using h2)

theorem all_adel {α β : Type} [DecidableEq α] (l : List (α × β)) (k : α)
    (p : α × β → Bool) (h : l.all p = true) : (adel l k).all p = true := by
  induction l with
  | nil => simp [adel]
  | cons x rest ih =>
    obtain ⟨a, b⟩ := x
    simp only [List.all_cons, Bool.and_eq_true] at h
    rw [adel]
    by_cases ha : a = k
    · rw [if_pos ha]
      exact h.2
    · rw [if_neg ha]
      simp only [List.all_cons, Bool.and_eq_true]
      exact ⟨h.1, ih h.2⟩

theorem all_aset {α β : Type} [DecidableEq α] (l : List (α × β)) (k : α) (v : β)
    (p : α × β → Bool) (h : l.all p = true) (hv : p (k, v) = true) :
    (aset l k v).all p = true := by
  induction l with
  | nil => simp [aset, hv]
  | cons x rest ih =>
    obtain ⟨a, b⟩ := x
    simp only [List.all_cons, Bool.and_eq_true] at h
    rw [aset]
    by_cases ha : a = k
    · rw [if_pos ha]
      simp only [List.all_cons, Bool.and_eq_true]
      exact ⟨hv, h.2⟩
    · rw [if_neg ha]
      simp only [List.all_cons, Bool.and_eq_true]
      exact ⟨h.1, ih h.2⟩

theorem all_of_alook {α β : Type} [DecidableEq α] (l : List (α × β)) (k : α) (v : β)
    (p : α × β → Bool) (h : l.all p = true) (hk : alook l k = some v) : p (k, v) = true := by
  induction l with
  | nil => simp [alook] at hk
  | cons x rest ih =>
    obtain ⟨a, b⟩ := x
    simp only [List.all_cons, Bool.and_eq_true] at h
    rw [alook] at hk
    by_cases ha : a = k
    · rw [if_pos ha] at hk
      have hb := Option.some.inj hk
      subst hb
      subst ha
      exact h.1
    · rw [if_neg ha] at hk
      exact ih h.2 hk

theorem opRun_reach (st : Ledger) (op : LOp) (hg : goodOpB op = true)
    (hr : ReachB st = true) : ReachB (opRun st op).1 = true := by
  rw [ReachB, Bool.and_eq_true] at hr
  obtain ⟨hInv, hRecs⟩ := hr
  cases op with
  | check lines p =>
    rw [ReachB, Bool.and_eq_true]
    exact ⟨hInv, hRecs⟩
  | reserve o lines ts =>
    simp only [goodOpB, Bool.and_eq_true] at hg
    obtain ⟨hnd, hpos⟩ := hg
    rcases inventoryReserve_cases st (.str o) (lines.map mkItem) 30 ts with h | h | ⟨e, h⟩ |
      ⟨stock', hfs, hap, h⟩
    · simp only [opRun, h]
      rw [ReachB, Bool.and_eq_true]
      exact ⟨hInv, hRecs⟩
    · simp only [opRun, h]
      rw [ReachB, Bool.and_eq_true]
      exact ⟨hInv, hRecs⟩
    · simp only [opRun, h]
      rw [ReachB, Bool.and_eq_true]
      exact ⟨hInv, hRecs⟩
    · simp only [opRun, h]
      have hall := all_of_findShort_none st (lines.map mkItem) hfs
      rw [List.all_eq_true] at hall
      have hval : ∀ l ∈ lines, ∃ e, alook st.stock (.str l.1) = some e ∧ l.2 ≤ e.qty :=
        fun l hl => lineOKB_mkItem_elim st l (hall (mkItem l) (List.mem_map_of_mem _ hl))
      rw [List.all_eq_true] at hpos
      have hpos' : ∀ l ∈ lines, (0:Int) ≤ l.2 := fun l hl => by simpa using hpos l hl
      obtain ⟨hs', hmono⟩ := applyLines_inv lines st.stock stock'
        (by rwa [InvB_eq_stockInvB] at hInv) hnd hpos' hval hap
      rw [ReachB, Bool.and_eq_true]
      constructor
      · rw [InvB_eq_stockInvB]
        exact hs'
      · have hmono' := recItemsOKB_mono st.stock stock' st.reservations hmono hRecs
        rw [recItemsOKB] at hmono' ⊢
        dsimp
        apply all_aset _ _ _ _ hmono'
        dsimp
        rw [List.all_eq_true]
        intro it hit
        obtain ⟨l, hl, rfl⟩ := List.mem_map.mp hit
        rw [Bool.and_eq_true]
        constructor
        · simp only [itemGoodB, mkItem, decide_eq_true_eq]
          exact hpos' l hl
        · obtain ⟨e', he', _⟩ := hval l hl
          simp only [mkItem]
          exact hmono (.str l.1) (by rw [he']; rfl)
  | release rid =>
    rcases inventoryRelease_cases st (.str rid) with h | ⟨e, h⟩ |
      ⟨rid', record, stock', hrv, hfound, hcl, h⟩
    · simp only [opRun, h]
      rw [ReachB, Bool.and_eq_true]
      exact ⟨hInv, hRecs⟩
    · simp only [opRun, h]
      rw [ReachB, Bool.and_eq_true]
      exact ⟨hInv, hRecs⟩
    · have hre : rid = rid' := PyVal.str.inj hrv
      subst hre
      simp only [opRun, h]
      have hrecOK := all_of_alook st.reservations rid record _ hRecs hfound
      dsimp at hrecOK
      rw [List.all_eq_true] at hrecOK
      have hgood : ∀ it ∈ record.items, ∃ sk n, it.sku = some sk ∧ it.qty = some (.int n)
          ∧ 0 ≤ n ∧ (alook st.stock sk).isSome = true :=
        fun it hit => recItem_elim st.stock it (hrecOK it hit)
      obtain ⟨hs', hmono⟩ := creditLines_inv record.items st.stock stock'
        (by rwa [InvB_eq_stockInvB] at hInv) hgood hcl
      rw [ReachB, Bool.and_eq_true]
      constructor
      · rw [InvB_eq_stockInvB]
        exact hs'
      · have hmono' := recItemsOKB_mono st.stock stock' st.reservations hmono hRecs
        rw [recItemsOKB] at hmono' ⊢
        dsimp
        exact all_adel _ _ _ hmono'

theorem run_reach (st : Ledger) (ops : List LOp) (hg : goodOpsB ops = true)
    (hr : ReachB st = true) : ReachB (runOps st ops) = true := by
  induction ops generalizing st with
  | nil => exact hr
  | cons op rest ih =>
    simp only [goodOpsB, List.all_cons, Bool.and_eq_true] at hg
    rw [runOps_cons]
    exact ih (opRun st op).1 hg.2 (opRun_reach st op hg.1 hr)

/-- **C8 counterexample**: a single reserve whose item list repeats a SKU
passes validation twice against the untouched stock, then mutates twice:
reserving 4 + 4 JEANS-BLK-32 against a total of 6 drives the total to -2
while the locations sum reaches 0 — the StockEntry invariant fails. -/
theorem stockentry_invariant_cex :
    InvB (runOps initialLedger
      [.reserve "o" [("JEANS-BLK-32", 4), ("JEANS-BLK-32", 4)] 0]) = false := by decide

/-- **C8 (amended)**: starting from the initial stock map, every sequence of
check, reserve and release operations in which each reserve call's item
lines name pairwise distinct SKUs with non-negative quantities preserves the
StockEntry invariant: every SKU's total equals the sum of its locations
mapping, and every total and per-location quantity is non-negative. -/
theorem stockentry_invariant (ops : List LOp) (h : goodOpsB ops = true) :
    InvB (runOps initialLedger ops) = true := by
  have h0 : ReachB initialLedger = true := by decide
  have hr := run_reach initialLedger ops h h0
  rw [ReachB, Bool.and_eq_true] at hr
  exact hr.1

theorem stockentry_invariant_witness :
    goodOpsB [LOp.check [("HAT-BLK", 1)] .none,
              LOp.reserve "o" [("HAT-BLK", 2), ("JEANS-BLK-32", 1)] 3,
              LOp.release "res_o_3"] = true
    ∧ InvB (runOps initialLedger
        [LOp.check [("HAT-BLK", 1)] .none,
         LOp.reserve "o" [("HAT-BLK", 2), ("JEANS-BLK-32", 1)] 3,
         LOp.release "res_o_3"]) = true :=
  ⟨by decide,
   stockentry_invariant
     [LOp.check [("HAT-BLK", 1)] .none,
      LOp.reserve "o" [("HAT-BLK", 2), ("JEANS-BLK-32", 1)] 3,
      LOp.release "res_o_3"] (by decide)⟩

/-! ## Totality of the flow's ledger calls on well-typed carts -/

theorem cartAmountAux_ok (cart : List Item) :
    ∀ acc : Int, cartTypedB cart = true → ∃ n, cartAmountAux acc cart = .ok n := by
  induction cart with
  | nil => exact fun acc _ => ⟨acc, rfl⟩
  | cons it rest ih =>
    intro acc hty
    simp only [cartTypedB, List.all_cons, Bool.and_eq_true] at hty
    obtain ⟨⟨hq, hp⟩, hrest⟩ := hty
    have hrest' : cartTypedB rest = true := hrest
    cases hqv : it.qty with
    | none => rw [hqv] at hq; simp at hq
    | some vq =>
      cases vq with
      | int nq =>
        cases hpv : it.price with
        | none =>
          obtain ⟨n, hn⟩ := ih acc hrest'
          exact ⟨n, by simp [cartAmountAux, pyGet, hqv, hpv, pyMul, addInt, hn]⟩
        | some vp =>
          cases vp with
          | int np =>
            obtain ⟨n, hn⟩ := ih (acc + np * nq) hrest'
            exact ⟨n, by simp [cartAmountAux, pyGet, hqv, hpv, pyMul, addInt, hn]⟩
          | str s => rw [hpv] at hp; simp at hp
          | bool b => rw [hpv] at hp; simp at hp
          | none => rw [hpv] at hp; simp at hp
      | str s => rw [hqv] at hq; simp at hq
      | bool b => rw [hqv] at hq; simp at hq
      | none => rw [hqv] at hq; simp at hq

theorem cartAmount_ok (cart : List Item) (hty : cartTypedB cart = true) :
    ∃ n, cartAmount cart = .ok n := cartAmountAux_ok cart 0 hty

theorem checkItems_ok (st : Ledger) (pref : PyVal) (cart : List Item)
    (hty : cartTypedB cart = true) : ∃ bs, checkItems st pref cart = .ok bs := by
  induction cart with
  | nil => exact ⟨[], rfl⟩
  | cons it rest ih =>
    simp only [cartTypedB, List.all_cons, Bool.and_eq_true] at hty
    obtain ⟨⟨hq, _⟩, hrest⟩ := hty
    obtain ⟨bs, hbs⟩ := ih hrest
    cases hqv : it.qty with
    | none => rw [hqv] at hq; simp at hq
    | some vq =>
      cases vq with
      | int nq =>
        exact ⟨availOf st pref (pyGet it.sku .none) nq :: bs,
          by simp [checkItems, pyGet, hqv, pyToInt, hbs]⟩
      | str s => rw [hqv] at hq; simp at hq
      | bool b => rw [hqv] at hq; simp at hq
      | none => rw [hqv] at hq; simp at hq

theorem alook_nonstr_none : ∀ (stock : List (PyVal × StockEntry)),
    (∀ p ∈ stock, (match p.1 with | PyVal.str _ => true | _ => false) = true) →
    alook stock PyVal.none = Option.none := by
  intro stock
  induction stock with
  | nil => intro _; rfl
  | cons p rest ih =>
    intro h
    obtain ⟨a, b⟩ := p
    have ha := h (a, b) (List.mem_cons_self _ _)
    rw [alook]
    cases a with
    | str s =>
      rw [if_neg (fun hc => PyVal.noConfusion hc)]
      exact ih (fun q hq => h q (List.mem_cons_of_mem _ hq))
    | int n => simp at ha
    | bool bb => simp at ha
    | none => simp at ha

theorem alook_strKeys_none (st : Ledger) (hstr : strKeysB st = true) :
    alook st.stock PyVal.none = Option.none := by
  rw [strKeysB, List.all_eq_true] at hstr
  exact alook_nonstr_none st.stock hstr

theorem check_success_sku_present (st : Ledger) (pref : PyVal) (cart : List Item)
    (bs : List Bool) (hstr : strKeysB st = true)
    (hck : checkItems st pref cart = .ok bs) (hall : bs.all id = true) :
    ∀ it ∈ cart, it.sku.isSome = true := by
  induction cart generalizing bs with
  | nil => intro it hit; simp at hit
  | cons it0 rest ih =>
    intro it hit
    rw [checkItems] at hck
    cases hpq : pyToInt (pyGet it0.qty (.int 1)) with
    | error e => rw [hpq] at hck; simp at hck
    | ok q =>
      rw [hpq] at hck
      cases hrest : checkItems st pref rest with
      | error e => rw [hrest] at hck; simp at hck
      | ok others =>
        rw [hrest] at hck
        simp only [] at hck
        have hbs := Except.ok.inj hck
        rw [← hbs] at hall
        simp only [List.all_cons, Bool.and_eq_true, id] at hall
        obtain ⟨hav, hall'⟩ := hall
        rcases List.mem_cons.mp hit with hh | hh
        · subst hh
          cases hsk : it.sku with
          | none =>
            rw [availOf] at hav
            rw [show pyGet it.sku .none = PyVal.none by simp [pyGet, hsk]] at hav
            rw [alook_strKeys_none st hstr] at hav
            simp at hav
          | some sk => rfl
        · exact ih others hrest hall' it hh

theorem findShort_ok (st : Ledger) (cart : List Item)
    (hsk : ∀ it ∈ cart, it.sku.isSome = true) (hty : cartTypedB cart = true) :
    ∃ w, findShort st cart = .ok w := by
  induction cart with
  | nil => exact ⟨Option.none, rfl⟩
  | cons it rest ih =>
    simp only [cartTypedB, List.all_cons, Bool.and_eq_true] at hty
    obtain ⟨⟨hq, _⟩, hrest⟩ := hty
    have hsk0 := hsk it (List.mem_cons_self _ _)
    rw [Option.isSome_iff_exists] at hsk0
    obtain ⟨sk, hsk0⟩ := hsk0
    cases hqv : it.qty with
    | none => rw [hqv] at hq; simp at hq
    | some vq =>
      cases vq with
      | int nq =>
        cases he : alook st.stock sk with
        | none => exact ⟨some sk, by simp [findShort, pyIndex, hsk0, hqv, pyToInt, he]⟩
        | some e =>
          by_cases hlt : e.qty < nq
          · exact ⟨some sk, by simp [findShort, pyIndex, hsk0, hqv, pyToInt, he, if_pos hlt]⟩
          · obtain ⟨w, hw⟩ := ih (fun i hi => hsk i (List.mem_cons_of_mem _ hi)) hrest
            exact ⟨w, by simp [findShort, pyIndex, hsk0, hqv, pyToInt, he, if_neg hlt, hw]⟩
      | str s => rw [hqv] at hq; simp at hq
      | bool b => rw [hqv] at hq; simp at hq
      | none => rw [hqv] at hq; simp at hq

theorem inventoryReserve_any (st : Ledger) (o : String) (cart : List Item) (ts : Int)
    (hsk : ∀ it ∈ cart, it.sku.isSome = true) (hty : cartTypedB cart = true) :
    ∃ p, inventoryReserve st (.str o) cart (.int 30) ts = .ok p := by
  rw [inventoryReserve]
  simp only [pyToInt]
  by_cases hb : (!(PyVal.str o).truthy || cart.isEmpty) = true
  · rw [if_pos hb]
    exact ⟨(st, ⟨.failed, [], ["MISSING_FIELDS"]⟩), rfl⟩
  · rw [if_neg hb]
    obtain ⟨w, hw⟩ := findShort_ok st cart hsk hty
    rw [hw]
    cases w with
    | some x => exact ⟨(st, ⟨.failed, [], ["INSUFFICIENT_STOCK"]⟩), rfl⟩
    | none =>
      have hall := all_of_findShort_none st cart hw
      have hpres : cart.all (linePresentB st.stock) = true := by
        rw [List.all_eq_true] at hall ⊢
        exact fun i hi => linePresentB_of_lineOKB st i (hall i hi)
      obtain ⟨stock', hap, _, _⟩ := applyLines_ok st.stock cart hpres
      rw [hap]
      exact ⟨_, rfl⟩

/-- Behaviour of `checkout_flow` once the check, amount and reserve steps
have gone through, as a function of the collaborator responses. -/
theorem checkout_after_reserve (led : Ledger) (cart : List Item) (collab : Collab)
    (oid : String) (ts : Int) (pref : PyVal) (chk : TaskResult) (amt : Int)
    (st1 : Ledger) (r : TaskResult)
    (hck : inventoryCheck led cart pref = .ok chk) (hcs : chk.status = .success)
    (ham : cartAmount cart = .ok amt)
    (hres : inventoryReserve led (.str oid) cart (.int 30) ts = .ok (st1, r))
    (hrs : r.status = .success) :
    checkout_flow led cart collab oid ts pref
      = match collab.authStatus with
        | .failed =>
          (match inventoryRelease st1 (.str (ridOf (.str oid) ts)) with
           | .error e => .error e
           | .ok (led2, _) =>
             .ok ⟨"failed", some "payment_failed", led2,
                  stepsBase ++ ["PAYMENT_AUTHORIZE", "INVENTORY_RELEASE"]⟩)
        | .pending => .ok ⟨"pending", Option.none, st1, stepsBase ++ ["PAYMENT_AUTHORIZE"]⟩
        | .success =>
          if collab.captureStatus ≠ Status.success then
            .ok ⟨"failed", some "capture_failed", st1,
                 stepsBase ++ ["PAYMENT_AUTHORIZE", "PAYMENT_CAPTURE"]⟩
          else if collab.fulStatus ≠ Status.success then
            .ok ⟨"failed", some "fulfillment_failed", st1,
                 stepsBase ++ ["PAYMENT_AUTHORIZE", "PAYMENT_CAPTURE", "FULFILLMENT_CREATE"]⟩
          else
            .ok ⟨"success", Option.none, st1,
                 stepsBase ++ ["PAYMENT_AUTHORIZE", "PAYMENT_CAPTURE",
                               "FULFILLMENT_CREATE", "LOYALTY_ISSUE"]⟩ := by
  obtain ⟨htr, hne, hfs, hap, hresv, hr⟩ :=
    reserve_success_inversion led (.str oid) cart 30 ts st1 r hres hrs
  rw [checkout_flow, hck]
  simp only []
  rw [if_neg (by simp [hcs])]
  rw [ham]
  simp only []
  rw [hres]
  simp only []
  rw [if_neg (by simp [hrs])]
  rw [hr]
  simp [alook, pyGet]

/-- **C6**: a pending payment outcome halts the saga in a pending terminal
state: for every checkout whose check, amount and reserve steps succeeded and
whose PAYMENT_AUTHORIZE response is pending, the flow returns status
`pending`, dispatches no capture, fulfillment, loyalty-issue or release
step, and the final ledger is exactly the post-reserve ledger. -/
theorem pending_holds_reservation (led : Ledger) (cart : List Item) (collab : Collab)
    (oid : String) (ts : Int) (pref : PyVal) (chk : TaskResult) (amt : Int)
    (st1 : Ledger) (r : TaskResult)
    (hck : inventoryCheck led cart pref = .ok chk) (hcs : chk.status = .success)
    (ham : cartAmount cart = .ok amt)
    (hres : inventoryReserve led (.str oid) cart (.int 30) ts = .ok (st1, r))
    (hrs : r.status = .success)
    (hauth : collab.authStatus = .pending) :
    checkout_flow led cart collab oid ts pref
      = .ok ⟨"pending", Option.none, st1,
             ["INVENTORY_CHECK", "RECOMMEND_FOR_CART", "LOYALTY_CALCULATE",
              "INVENTORY_RESERVE", "PAYMENT_AUTHORIZE"]⟩
    ∧ ("PAYMENT_CAPTURE" : String) ∉ (["INVENTORY_CHECK", "RECOMMEND_FOR_CART",
        "LOYALTY_CALCULATE", "INVENTORY_RESERVE", "PAYMENT_AUTHORIZE"] : List String)
    ∧ ("FULFILLMENT_CREATE" : String) ∉ (["INVENTORY_CHECK", "RECOMMEND_FOR_CART",
        "LOYALTY_CALCULATE", "INVENTORY_RESERVE", "PAYMENT_AUTHORIZE"] : List String)
    ∧ ("LOYALTY_ISSUE" : String) ∉ (["INVENTORY_CHECK", "RECOMMEND_FOR_CART",
        "LOYALTY_CALCULATE", "INVENTORY_RESERVE", "PAYMENT_AUTHORIZE"] : List String)
    ∧ ("INVENTORY_RELEASE" : String) ∉ (["INVENTORY_CHECK", "RECOMMEND_FOR_CART",
        "LOYALTY_CALCULATE", "INVENTORY_RESERVE", "PAYMENT_AUTHORIZE"] : List String) := by
  refine ⟨?_, by decide, by decide, by decide, by decide⟩
  rw [checkout_after_reserve led cart collab oid ts pref chk amt st1 r hck hcs ham hres hrs,
      hauth]
  rfl

/-- **C7**: no compensation after capture or fulfillment failure.  Once the
reserve step has succeeded: a failed PAYMENT_CAPTURE yields status failed,
reason `capture_failed`; a failed FULFILLMENT_CREATE yields status failed,
reason `fulfillment_failed`; in both cases no INVENTORY_RELEASE is
dispatched and the ledger stays exactly the post-reserve ledger. -/
theorem no_compensation_capture_fulfillment (led : Ledger) (cart : List Item)
    (collab : Collab) (oid : String) (ts : Int) (pref : PyVal) (chk : TaskResult)
    (amt : Int) (st1 : Ledger) (r : TaskResult)
    (hck : inventoryCheck led cart pref = .ok chk) (hcs : chk.status = .success)
    (ham : cartAmount cart = .ok amt)
    (hres : inventoryReserve led (.str oid) cart (.int 30) ts = .ok (st1, r))
    (hrs : r.status = .success) :
    (collab.authStatus = .success → collab.captureStatus = .failed →
      checkout_flow led cart collab oid ts pref
        = .ok ⟨"failed", some "capture_failed", st1,
               ["INVENTORY_CHECK", "RECOMMEND_FOR_CART", "LOYALTY_CALCULATE",
                "INVENTORY_RESERVE", "PAYMENT_AUTHORIZE", "PAYMENT_CAPTURE"]⟩)
    ∧ (collab.authStatus = .success → collab.captureStatus = .success →
        collab.fulStatus = .failed →
      checkout_flow led cart collab oid ts pref
        = .ok ⟨"failed", some "fulfillment_failed", st1,
               ["INVENTORY_CHECK", "RECOMMEND_FOR_CART", "LOYALTY_CALCULATE",
                "INVENTORY_RESERVE", "PAYMENT_AUTHORIZE", "PAYMENT_CAPTURE",
                "FULFILLMENT_CREATE"]⟩)
    ∧ ("INVENTORY_RELEASE" : String) ∉ (["INVENTORY_CHECK", "RECOMMEND_FOR_CART",
        "LOYALTY_CALCULATE", "INVENTORY_RESERVE", "PAYMENT_AUTHORIZE",
        "PAYMENT_CAPTURE"] : List String)
    ∧ ("INVENTORY_RELEASE" : String) ∉ (["INVENTORY_CHECK", "RECOMMEND_FOR_CART",
        "LOYALTY_CALCULATE", "INVENTORY_RESERVE", "PAYMENT_AUTHORIZE",
        "PAYMENT_CAPTURE", "FULFILLMENT_CREATE"] : List String) := by
  refine ⟨?_, ?_, by decide, by decide⟩
  · intro hauth hcap
    rw [checkout_after_reserve led cart collab oid ts pref chk amt st1 r hck hcs ham hres hrs,
        hauth]
    simp only []
    rw [if_pos (by simp [hcap])]
    rfl
  · intro hauth hcap hful
    rw [checkout_after_reserve led cart collab oid ts pref chk amt st1 r hck hcs ham hres hrs,
        hauth]
    simp only []
    rw [if_neg (by simp [hcap]), if_pos (by simp [hful])]
    rfl

/-- **C4**: payment-failure compensation.  For every checkout whose check,
amount and reserve steps succeeded and whose PAYMENT_AUTHORIZE response is
failed, the flow dispatches INVENTORY_RELEASE on the reservation just taken
and returns status failed with reason `payment_failed`, with every SKU's
total stock quantity restored to its value before the reserve. -/
theorem payment_failure_compensation (led : Ledger) (cart : List Item) (collab : Collab)
    (oid : String) (ts : Int) (pref : PyVal) (chk : TaskResult) (amt : Int)
    (st1 : Ledger) (r : TaskResult)
    (hck : inventoryCheck led cart pref = .ok chk) (hcs : chk.status = .success)
    (ham : cartAmount cart = .ok amt)
    (hres : inventoryReserve led (.str oid) cart (.int 30) ts = .ok (st1, r))
    (hrs : r.status = .success)
    (hauth : collab.authStatus = .failed) :
    ∃ led2, checkout_flow led cart collab oid ts pref
        = .ok ⟨"failed", some "payment_failed", led2,
               ["INVENTORY_CHECK", "RECOMMEND_FOR_CART", "LOYALTY_CALCULATE",
                "INVENTORY_RESERVE", "PAYMENT_AUTHORIZE", "INVENTORY_RELEASE"]⟩
      ∧ (∀ k, totalOf led2 k = totalOf led k) := by
  obtain ⟨htr, hne, hfs, hap, hresv, hr⟩ :=
    reserve_success_inversion led (.str oid) cart 30 ts st1 r hres hrs
  have hparse : cart.all lineParsesB = true :=
    all_lineParsesB_of_lineOKB led cart (all_of_findShort_none led cart hfs)
  obtain ⟨stock2, hcl, htot2, _⟩ := creditLines_ok st1.stock cart hparse
  have hfound : alook st1.reservations (ridOf (.str oid) ts)
      = some ⟨.str oid, cart, 30, ts⟩ := by
    rw [hresv]
    exact alook_aset_self _ _ _
  have hrel : inventoryRelease st1 (.str (ridOf (.str oid) ts))
      = .ok (⟨stock2, adel st1.reservations (ridOf (.str oid) ts)⟩,
             ⟨.success, [("released_reservation", .str (ridOf (.str oid) ts))], []⟩) := by
    rw [inventoryRelease]
    simp [PyVal.truthy, ridOf_beq_empty, hfound, hcl]
    exact ridOf_truthy _ _
  refine ⟨⟨stock2, adel st1.reservations (ridOf (.str oid) ts)⟩, ?_, ?_⟩
  · rw [checkout_after_reserve led cart collab oid ts pref chk amt st1 r hck hcs ham hres hrs,
        hauth]
    simp only []
    rw [hrel]
    rfl
  · intro k
    have h1 := applyLines_totals led.stock cart st1.stock hap k
    rw [totalOf_eq_qtyAt, totalOf_eq_qtyAt]
    dsimp
    rw [htot2 k]
    omega

theorem pending_holds_reservation_witness :
    checkout_flow initialLedger
        [⟨some (.str "HAT-BLK"), some (.int 2), some (.int 100)⟩]
        ⟨.pending, .success, .success⟩ "o1" 0 .none
      = .ok ⟨"pending", Option.none,
             ⟨[(.str "TSHIRT-RED-XL", ⟨10, [("STORE_1", 5), ("WAREHOUSE", 5)]⟩),
               (.str "TSHIRT-BLUE-M", ⟨0, [("STORE_1", 0), ("WAREHOUSE", 0)]⟩),
               (.str "JEANS-BLK-32", ⟨6, [("STORE_2", 6)]⟩),
               (.str "HAT-BLK", ⟨13, [("WAREHOUSE", 13)]⟩)],
              [("res_o1_0", ⟨.str "o1",
                [⟨some (.str "HAT-BLK"), some (.int 2), some (.int 100)⟩], 30, 0⟩)]⟩,
             ["INVENTORY_CHECK", "RECOMMEND_FOR_CART", "LOYALTY_CALCULATE",
              "INVENTORY_RESERVE", "PAYMENT_AUTHORIZE"]⟩
    ∧ ("PAYMENT_CAPTURE" : String) ∉ (["INVENTORY_CHECK", "RECOMMEND_FOR_CART",
        "LOYALTY_CALCULATE", "INVENTORY_RESERVE", "PAYMENT_AUTHORIZE"] : List String)
    ∧ ("FULFILLMENT_CREATE" : String) ∉ (["INVENTORY_CHECK", "RECOMMEND_FOR_CART",
        "LOYALTY_CALCULATE", "INVENTORY_RESERVE", "PAYMENT_AUTHORIZE"] : List String)
    ∧ ("LOYALTY_ISSUE" : String) ∉ (["INVENTORY_CHECK", "RECOMMEND_FOR_CART",
        "LOYALTY_CALCULATE", "INVENTORY_RESERVE", "PAYMENT_AUTHORIZE"] : List String)
    ∧ ("INVENTORY_RELEASE" : String) ∉ (["INVENTORY_CHECK", "RECOMMEND_FOR_CART",
        "LOYALTY_CALCULATE", "INVENTORY_RESERVE", "PAYMENT_AUTHORIZE"] : List String) :=
  pending_holds_reservation initialLedger
    [⟨some (.str "HAT-BLK"), some (.int 2), some (.int 100)⟩]
    ⟨.pending, .success, .success⟩ "o1" 0 .none ⟨.success, [], []⟩ 200
    ⟨[(.str "TSHIRT-RED-XL", ⟨10, [("STORE_1", 5), ("WAREHOUSE", 5)]⟩),
      (.str "TSHIRT-BLUE-M", ⟨0, [("STORE_1", 0), ("WAREHOUSE", 0)]⟩),
      (.str "JEANS-BLK-32", ⟨6, [("STORE_2", 6)]⟩),
      (.str "HAT-BLK", ⟨13, [("WAREHOUSE", 13)]⟩)],
     [("res_o1_0", ⟨.str "o1",
       [⟨some (.str "HAT-BLK"), some (.int 2), some (.int 100)⟩], 30, 0⟩)]⟩
    ⟨.success, [("reservation_id", .str "res_o1_0")], []⟩
    (by decide) (by decide) (by decide) (by decide) (by decide) (by decide)

theorem no_compensation_capture_fulfillment_witness :
    ((⟨.success, .failed, .success⟩ : Collab).authStatus = .success →
      (⟨.success, .failed, .success⟩ : Collab).captureStatus = .failed →
      checkout_flow initialLedger
          [⟨some (.str "HAT-BLK"), some (.int 2), some (.int 100)⟩]
          ⟨.success, .failed, .success⟩ "o1" 0 .none
        = .ok ⟨"failed", some "capture_failed",
               ⟨[(.str "TSHIRT-RED-XL", ⟨10, [("STORE_1", 5), ("WAREHOUSE", 5)]⟩),
                 (.str "TSHIRT-BLUE-M", ⟨0, [("STORE_1", 0), ("WAREHOUSE", 0)]⟩),
                 (.str "JEANS-BLK-32", ⟨6, [("STORE_2", 6)]⟩),
                 (.str "HAT-BLK", ⟨13, [("WAREHOUSE", 13)]⟩)],
                [("res_o1_0", ⟨.str "o1",
                  [⟨some (.str "HAT-BLK"), some (.int 2), some (.int 100)⟩], 30, 0⟩)]⟩,
               ["INVENTORY_CHECK", "RECOMMEND_FOR_CART", "LOYALTY_CALCULATE",
                "INVENTORY_RESERVE", "PAYMENT_AUTHORIZE", "PAYMENT_CAPTURE"]⟩)
    ∧ ((⟨.success, .failed, .success⟩ : Collab).authStatus = .success →
        (⟨.success, .failed, .success⟩ : Collab).captureStatus = .success →
        (⟨.success, .failed, .success⟩ : Collab).fulStatus = .failed →
      checkout_flow initialLedger
          [⟨some (.str "HAT-BLK"), some (.int 2), some (.int 100)⟩]
          ⟨.success, .failed, .success⟩ "o1" 0 .none
        = .ok ⟨"failed", some "fulfillment_failed",
               ⟨[(.str "TSHIRT-RED-XL", ⟨10, [("STORE_1", 5), ("WAREHOUSE", 5)]⟩),
                 (.str "TSHIRT-BLUE-M", ⟨0, [("STORE_1", 0), ("WAREHOUSE", 0)]⟩),
                 (.str "JEANS-BLK-32", ⟨6, [("STORE_2", 6)]⟩),
                 (.str "HAT-BLK", ⟨13, [("WAREHOUSE", 13)]⟩)],
                [("res_o1_0", ⟨.str "o1",
                  [⟨some (.str "HAT-BLK"), some (.int 2), some (.int 100)⟩], 30, 0⟩)]⟩,
               ["INVENTORY_CHECK", "RECOMMEND_FOR_CART", "LOYALTY_CALCULATE",
                "INVENTORY_RESERVE", "PAYMENT_AUTHORIZE", "PAYMENT_CAPTURE",
                "FULFILLMENT_CREATE"]⟩)
    ∧ ("INVENTORY_RELEASE" : String) ∉ (["INVENTORY_CHECK", "RECOMMEND_FOR_CART",
        "LOYALTY_CALCULATE", "INVENTORY_RESERVE", "PAYMENT_AUTHORIZE",
        "PAYMENT_CAPTURE"] : List String)
    ∧ ("INVENTORY_RELEASE" : String) ∉ (["INVENTORY_CHECK", "RECOMMEND_FOR_CART",
        "LOYALTY_CALCULATE", "INVENTORY_RESERVE", "PAYMENT_AUTHORIZE",
        "PAYMENT_CAPTURE", "FULFILLMENT_CREATE"] : List String) :=
  no_compensation_capture_fulfillment initialLedger
    [⟨some (.str "HAT-BLK"), some (.int 2), some (.int 100)⟩]
    ⟨.success, .failed, .success⟩ "o1" 0 .none ⟨.success, [], []⟩ 200
    ⟨[(.str "TSHIRT-RED-XL", ⟨10, [("STORE_1", 5), ("WAREHOUSE", 5)]⟩),
      (.str "TSHIRT-BLUE-M", ⟨0, [("STORE_1", 0), ("WAREHOUSE", 0)]⟩),
      (.str "JEANS-BLK-32", ⟨6, [("STORE_2", 6)]⟩),
      (.str "HAT-BLK", ⟨13, [("WAREHOUSE", 13)]⟩)],
     [("res_o1_0", ⟨.str "o1",
       [⟨some (.str "HAT-BLK"), some (.int 2), some (.int 100)⟩], 30, 0⟩)]⟩
    ⟨.success, [("reservation_id", .str "res_o1_0")], []⟩
    (by decide) (by decide) (by decide) (by decide) (by decide)

theorem payment_failure_compensation_witness :
    ∃ led2, checkout_flow initialLedger
        [⟨some (.str "HAT-BLK"), some (.int 2), some (.int 100)⟩]
        ⟨.failed, .success, .success⟩ "o1" 0 .none
        = .ok ⟨"failed", some "payment_failed", led2,
               ["INVENTORY_CHECK", "RECOMMEND_FOR_CART", "LOYALTY_CALCULATE",
                "INVENTORY_RESERVE", "PAYMENT_AUTHORIZE", "INVENTORY_RELEASE"]⟩
      ∧ (∀ k, totalOf led2 k = totalOf initialLedger k) :=
  payment_failure_compensation initialLedger
    [⟨some (.str "HAT-BLK"), some (.int 2), some (.int 100)⟩]
    ⟨.failed, .success, .success⟩ "o1" 0 .none ⟨.success, [], []⟩ 200
    ⟨[(.str "TSHIRT-RED-XL", ⟨10, [("STORE_1", 5), ("WAREHOUSE", 5)]⟩),
      (.str "TSHIRT-BLUE-M", ⟨0, [("STORE_1", 0), ("WAREHOUSE", 0)]⟩),
      (.str "JEANS-BLK-32", ⟨6, [("STORE_2", 6)]⟩),
      (.str "HAT-BLK", ⟨13, [("WAREHOUSE", 13)]⟩)],
     [("res_o1_0", ⟨.str "o1",
       [⟨some (.str "HAT-BLK"), some (.int 2), some (.int 100)⟩], 30, 0⟩)]⟩
    ⟨.success, [("reservation_id", .str "res_o1_0")], []⟩
    (by decide) (by decide) (by decide) (by decide) (by decide) (by decide)

/-- Whether an embedded call returned normally (no Python exception). -/
def exceptOk {ε α : Type} : Except ε α → Bool
  | .ok _ => true
  | .error _ => false

/-- **C5 counterexample**: a cart item whose `qty` is the string "two"
makes `_check` execute `int("two")`, raising `ValueError`; the checkout call
terminates with an unhandled exception instead of a structured result. -/
theorem checkout_never_raises_cex :
    exceptOk (checkout_flow initialLedger
      [⟨some (.str "TSHIRT-RED-XL"), some (.str "two"), Option.none⟩]
      ⟨.success, .success, .success⟩ "o1" 0 .none) = false := by decide

/-- **C5 (amended)**: checkout never raises on well-typed carts.  For every
ledger whose stock keys are strings (true of all reachable states), every
cart whose items carry a literal int `qty` and an absent-or-int `price`, and
every collaborator response assignment, `checkout_flow` returns a structured
terminal result whose status is one of success, pending, failed. -/
theorem checkout_total_status (led : Ledger) (cart : List Item) (collab : Collab)
    (oid : String) (ts : Int) (pref : PyVal)
    (hstr : strKeysB led = true) (hty : cartTypedB cart = true) :
    ∃ out, checkout_flow led cart collab oid ts pref = .ok out
      ∧ (out.status = "success" ∨ out.status = "pending" ∨ out.status = "failed") := by
  obtain ⟨bs, hck⟩ := checkItems_ok led pref cart hty
  by_cases hall : bs.all id = true
  case neg =>
    have hic : inventoryCheck led cart pref = .ok ⟨.failed, [], []⟩ := by
      rw [inventoryCheck, hck]
      dsimp only
      rw [if_neg hall]
    refine ⟨⟨"failed", some "inventory_unavailable", led, ["INVENTORY_CHECK"]⟩, ?_,
      Or.inr (Or.inr rfl)⟩
    rw [checkout_flow, hic]
    simp only []
    rw [if_pos (by simp)]
  case pos =>
    have hic : inventoryCheck led cart pref = .ok ⟨.success, [], []⟩ := by
      rw [inventoryCheck, hck]
      dsimp only
      rw [if_pos hall]
    obtain ⟨amt, ham⟩ := cartAmount_ok cart hty
    have hsk := check_success_sku_present led pref cart bs hstr hck hall
    obtain ⟨⟨st1, r⟩, hres⟩ := inventoryReserve_any led oid cart ts hsk hty
    by_cases hrs : r.status = Status.success
    case neg =>
      refine ⟨⟨"failed", some "reserve_failed", st1, stepsBase⟩, ?_, Or.inr (Or.inr rfl)⟩
      rw [checkout_flow, hic]
      simp only []
      rw [if_neg (by simp)]
      rw [ham]
      simp only []
      rw [hres]
      simp only []
      rw [if_pos hrs]
    case pos =>
      have hcar := checkout_after_reserve led cart collab oid ts pref _ amt st1 r
        hic rfl ham hres hrs
      cases hauth : collab.authStatus with
      | pending =>
        exact ⟨⟨"pending", Option.none, st1, stepsBase ++ ["PAYMENT_AUTHORIZE"]⟩,
          by rw [hcar, hauth], Or.inr (Or.inl rfl)⟩
      | success =>
        by_cases hcap : collab.captureStatus = Status.success
        · by_cases hful : collab.fulStatus = Status.success
          · refine ⟨⟨"success", Option.none, st1,
              stepsBase ++ ["PAYMENT_AUTHORIZE", "PAYMENT_CAPTURE", "FULFILLMENT_CREATE",
                            "LOYALTY_ISSUE"]⟩, ?_, Or.inl rfl⟩
            rw [hcar, hauth]
            simp only []
            rw [if_neg (by simp [hcap]), if_neg (by simp [hful])]
          · refine ⟨⟨"failed", some "fulfillment_failed", st1,
              stepsBase ++ ["PAYMENT_AUTHORIZE", "PAYMENT_CAPTURE", "FULFILLMENT_CREATE"]⟩,
              ?_, Or.inr (Or.inr rfl)⟩
            rw [hcar, hauth]
            simp only []
            rw [if_neg (by simp [hcap]), if_pos (by simp [hful])]
        · refine ⟨⟨"failed", some "capture_failed", st1,
            stepsBase ++ ["PAYMENT_AUTHORIZE", "PAYMENT_CAPTURE"]⟩, ?_, Or.inr (Or.inr rfl)⟩
          rw [hcar, hauth]
          simp only []
          rw [if_pos (by simp [hcap])]
      | failed =>
        obtain ⟨_, _, hfs, hap, hresv, hr⟩ :=
          reserve_success_inversion led (.str oid) cart 30 ts st1 r hres hrs
        have hparse : cart.all lineParsesB = true :=
          all_lineParsesB_of_lineOKB led cart (all_of_findShort_none led cart hfs)
        obtain ⟨stock2, hcl, _, _⟩ := creditLines_ok st1.stock cart hparse
        have hfound : alook st1.reservations (ridOf (.str oid) ts)
            = some ⟨.str oid, cart, 30, ts⟩ := by
          rw [hresv]
          exact alook_aset_self _ _ _
        have hrel : inventoryRelease st1 (.str (ridOf (.str oid) ts))
            = .ok (⟨stock2, adel st1.reservations (ridOf (.str oid) ts)⟩,
                   ⟨.success, [("released_reservation", .str (ridOf (.str oid) ts))], []⟩) := by
          rw [inventoryRelease]
          simp [PyVal.truthy, ridOf_beq_empty, hfound, hcl]
          exact ridOf_truthy _ _
        refine ⟨⟨"failed", some "payment_failed",
          ⟨stock2, adel st1.reservations (ridOf (.str oid) ts)⟩,
          stepsBase ++ ["PAYMENT_AUTHORIZE", "INVENTORY_RELEASE"]⟩, ?_, Or.inr (Or.inr rfl)⟩
        rw [hcar, hauth]
        simp only []
        rw [hrel]

theorem checkout_total_status_witness :
    ∃ out, checkout_flow initialLedger
        [⟨some (.str "JEANS-BLK-32"), some (.int 1), some (.int 1999)⟩]
        ⟨.success, .success, .success⟩ "o9" 4 .none = .ok out
      ∧ (out.status = "success" ∨ out.status = "pending" ∨ out.status = "failed") :=
  checkout_total_status initialLedger
    [⟨some (.str "JEANS-BLK-32"), some (.int 1), some (.int 1999)⟩]
    ⟨.success, .success, .success⟩ "o9" 4 .none (by decide) (by decide)
